import Mathlib

/-!
Verification of the b00t dependency orchestrator (`b00t-cli/src/orchestrator.rs`).

The development shallowly embeds the orchestrator: the datum data model, the
index, the container-runtime interactions (modelled as an explicit world state
together with a trace of runtime invocations and log events), and the
resolution algorithms `ensure_dependencies`, `resolve_capability`,
`ensure_api_dependencies`, `needs_start`, `start_service`,
`start_docker_service` and `wait_for_ready`.

The mutual recursion between `resolve_capability` and
`ensure_api_dependencies` (which the Rust source expresses with manually boxed
recursive futures) is embedded with an explicit fuel parameter; one unit of
fuel is consumed per capability-resolution cycle.  All definitions are
structurally recursive so that they evaluate by `rfl`/`decide` on concrete
inputs.

The raw-stdout parsing performed by `is_docker_running` and
`docker_container_exists` is modelled separately on explicit output lines
(`is_docker_running_lines`, `docker_container_exists_lines`); the
orchestration layer abstracts the observed per-container state into
`ContState`.  The timing behaviour of `wait_for_ready` is modelled on an
observation oracle producing an explicit event trace (`wait_for_ready_trace`).
-/

namespace B00t

/-- Modelled from the spec: the closed set of datum type variants (§3);
the enum declaration itself is not part of the orchestrator source file. -/
inductive DatumType
  | Docker | Mcp | Cli | Bash | Vscode | K8s | Apt | Ai | Api | Stack
deriving DecidableEq

/-- Modelled from the spec: the `provides` declaration of a datum (§3),
carrying the capability name this datum satisfies. -/
structure DatumProvides where
  capability : Option String
deriving DecidableEq

/-- Modelled from the spec: a capability requirement (§3): requested
capability, ordered key-prefix preferences, and a fallback datum name. -/
structure CapabilityRequirement where
  capability : Option String
  prefer : Option (List String)
  fallback : Option String
deriving DecidableEq

/-- Modelled from the spec: the datum record (§3), restricted to the fields
the orchestrator core reads.  `requires` and `env` are mappings; they are
embedded as association lists whose order is the iteration order. -/
structure BootDatum where
  name : String
  datum_type : Option DatumType
  depends_on : Option (List String)
  requires : Option (List (String × CapabilityRequirement))
  provides : Option DatumProvides
  image : Option String
  docker_args : Option (List String)
  env : Option (List (String × String))
deriving DecidableEq

/-- The datum index: the orchestrator's `HashMap<String, BootDatum>`,
embedded as an association list whose order is the map's iteration order. -/
abbrev Index : Type := List (String × BootDatum)

/-- `HashMap::get`: first entry with the given key. -/
def findDatum (dx : Index) (key : String) : Option BootDatum :=
  (List.find? (fun p => p.1 = key) dx).map Prod.snd

/-! ### Character-level string primitives

The string operations the orchestrator relies on (`str::starts_with`,
`str::trim`, `str::split("|||")`) are embedded structurally over the
character lists of the strings, so that they evaluate on concrete input. -/

/-- `p` is a prefix of the character list. -/
def isPrefixList : List Char → List Char → Bool
  | [], _ => true
  | _ :: _, [] => false
  | p :: ps, c :: cs => p == c && isPrefixList ps cs

/-- `str::starts_with`. -/
def strStartsWith (s p : String) : Bool := isPrefixList p.data s.data

/-- Trim leading and trailing whitespace from a character list. -/
def trimList (l : List Char) : List Char :=
  ((l.dropWhile Char.isWhitespace).reverse.dropWhile Char.isWhitespace).reverse

/-- `str::trim`. -/
def strTrim (s : String) : String := String.mk (trimList s.data)

/-- `str::split("|||")` on character lists: split at each leftmost
non-overlapping occurrence of `|||`. -/
def splitBars : List Char → List Char → List (List Char)
  | acc, '|' :: '|' :: '|' :: rest => acc.reverse :: splitBars [] rest
  | acc, c :: rest => splitBars (c :: acc) rest
  | acc, [] => [acc.reverse]

/-- `line.split("|||")`. -/
def strSplitBars (s : String) : List String := (splitBars [] s.data).map String.mk

/-- Observed container state, re-derived per call from the runtime:
`docker ps -a` shows nothing (Absent), an exited container (Stopped),
or an up container (Running). -/
inductive ContState
  | Absent | Stopped | Running
deriving DecidableEq

/-- The external container-runtime world: which runtime binaries are
available, the observed state of each container, and the exit
status / stderr of `start` and `run` invocations. -/
structure World where
  docker : Bool
  podman : Bool
  state : String → ContState
  startOk : String → Bool
  startErr : String → String
  runOk : String → Bool
  runErr : String → String

/-- A recorded invocation of the container runtime. -/
inductive Inv
  | ps (name : String)
  | psAll (name : String)
  | start (name : String)
  | run (name : String) (args : List String)
deriving DecidableEq

/-- A log event: a `B00T_DEBUG`-gated diagnostic line, or the unconditional
candidate-failure warning of `resolve_capability`. -/
inductive LogEv
  | debug (msg : String)
  | warnFailedStart (key : String) (msg : String)
deriving DecidableEq

/-- Result of running an orchestrator computation: value or error, final
world, runtime invocations issued, log events emitted. -/
structure Out (α : Type) where
  val : Except String α
  w : World
  invs : List Inv
  logs : List LogEv

/-- Orchestrator computations: explicit world passing plus invocation and
log traces, with string errors (`anyhow::Result`). -/
def M (α : Type) : Type := World → Out α

def M.pure (a : α) : M α := fun w => ⟨.ok a, w, [], []⟩

def M.bind (x : M α) (f : α → M β) : M β := fun w =>
  let o := x w
  match o.val with
  | .error e => ⟨.error e, o.w, o.invs, o.logs⟩
  | .ok a =>
      let o2 := f a o.w
      ⟨o2.val, o2.w, o.invs ++ o2.invs, o.logs ++ o2.logs⟩

instance : Monad M where
  pure := M.pure
  bind := M.bind

/-- `anyhow::bail!` -/
def M.throw (e : String) : M α := fun w => ⟨.error e, w, [], []⟩

/-- Emit a log event. -/
def M.log (ev : LogEv) : M Unit := fun w => ⟨.ok (), w, [], [ev]⟩

/-- `if std::env::var("B00T_DEBUG").is_ok() { eprintln!(...) }`: emit a
`debug` log event when the debug flag is set, and nothing otherwise. -/
def M.debugLog (dbg : Bool) (msg : String) : M Unit := fun w =>
  ⟨.ok (), w, [], if dbg then [.debug msg] else []⟩

/-- A debug log emitted only at one of the two call sites of a shared loop
(`cond`) and gated on the debug flag. -/
def M.debugLogIf (cond dbg : Bool) (msg : String) : M Unit := fun w =>
  ⟨.ok (), w, [], if cond && dbg then [.debug msg] else []⟩

/-- `.context(msg)`: prepend context to an error. -/
def M.context (c : String) (x : M α) : M α := fun w =>
  let o := x w
  match o.val with
  | .error e => ⟨.error (c ++ ": " ++ e), o.w, o.invs, o.logs⟩
  | .ok a => ⟨.ok a, o.w, o.invs, o.logs⟩

/-- `match ... { Ok/Err }` on a fallible call: capture the outcome instead of
propagating it. -/
def M.attempt (x : M α) : M (Except String α) := fun w =>
  let o := x w
  ⟨.ok o.val, o.w, o.invs, o.logs⟩

/-- `get_container_runtime`: `docker` if available, else `podman`,
else an error (lines 538-546). -/
def get_container_runtime : M String := fun w =>
  if w.docker then ⟨.ok "docker", w, [], []⟩
  else if w.podman then ⟨.ok "podman", w, [], []⟩
  else ⟨.error "Neither docker nor podman available", w, [], []⟩

/-- `<runtime> ps --filter name=^n$`: observe whether the container is
running (the stdout parsing is verified separately on explicit lines). -/
def observe_ps (n : String) : M Bool := fun w =>
  ⟨.ok (decide (w.state n = ContState.Running)), w, [Inv.ps n], []⟩

/-- `<runtime> ps -a --filter name=n`: `some true` when up, `some false`
when exited, `none` when no such container exists. -/
def observe_ps_all (n : String) : M (Option Bool) := fun w =>
  ⟨.ok (match w.state n with
        | .Running => some true
        | .Stopped => some false
        | .Absent => none), w, [Inv.psAll n], []⟩

/-- The world after a container has been brought up: only that container's
observed state changes, to `Running`. -/
def setRunning (w : World) (n : String) : World :=
  { w with state := fun m => if m = n then ContState.Running else w.state m }

/-- `<runtime> start n`: returns (exit ok?, stderr); a successful start
brings the container up. -/
def docker_start_cmd (n : String) : M (Bool × String) := fun w =>
  if w.startOk n then
    ⟨.ok (true, w.startErr n), setRunning w n, [Inv.start n], []⟩
  else ⟨.ok (false, w.startErr n), w, [Inv.start n], []⟩

/-- `<runtime> run -d --name n args…`: returns (exit ok?, stderr); a
successful run brings the container up. -/
def docker_runCmd (n : String) (args : List String) : M (Bool × String) := fun w =>
  if w.runOk n then
    ⟨.ok (true, w.runErr n), setRunning w n, [Inv.run n args], []⟩
  else ⟨.ok (false, w.runErr n), w, [Inv.run n args], []⟩

/-- `is_docker_running` (lines 345-364) at the orchestration layer. -/
def is_docker_runningM (n : String) : M Bool := do
  let _rt ← get_container_runtime
  observe_ps n

/-- `docker_container_exists` (lines 367-421) at the orchestration layer. -/
def docker_container_existsM (dbg : Bool) (n : String) : M (Option Bool) := do
  let _rt ← get_container_runtime
  let r ← observe_ps_all n
  M.debugLog dbg ("docker_container_exists " ++ n)
  M.pure r

/-- `needs_start` (lines 333-342): Docker containers need starting when not
running; Mcp servers and all other types never do. -/
def needs_start (d : BootDatum) : M Bool :=
  match d.datum_type with
  | some .Docker => do
      let r ← is_docker_runningM d.name
      M.pure (!r)
  | some .Mcp => M.pure false
  | _ => M.pure false

/-- One readiness-poll loop iteration budget of `wait_for_ready`
(lines 520-535), at the orchestration layer. -/
def wait_loopM (n : String) : Nat → M Unit
  | 0 => M.throw ("Timeout waiting for " ++ n ++ " to start")
  | k+1 => do
      let r ← is_docker_runningM n
      if r then M.pure () else wait_loopM n k

/-- `wait_for_ready` (lines 520-535): 30 attempts. -/
def wait_for_readyM (d : BootDatum) : M Unit := wait_loopM d.name 30

/-- The argument list of the container create command built by
`start_docker_service` (lines 477-500): `run -d --name <n>`, then
`docker_args` verbatim, then each `env` entry as `-e key=value`,
then the image. -/
def docker_run_args (d : BootDatum) (img : String) : List String :=
  ["run", "-d", "--name", d.name] ++ d.docker_args.getD []
    ++ (d.env.getD []).flatMap (fun kv => ["-e", kv.1 ++ "=" ++ kv.2])
    ++ [img]

/-- `start_docker_service` (lines 432-517). -/
def start_docker_service (dbg : Bool) (d : BootDatum) : M Unit := do
  let _rt ← get_container_runtime
  let ex ← docker_container_existsM dbg d.name
  match ex with
  | some true => M.debugLog dbg ("Container " ++ d.name ++ " already running")
  | some false => do
      M.debugLog dbg ("Restarting stopped container: " ++ d.name)
      let r ← docker_start_cmd d.name
      if r.1 then wait_for_readyM d
      else M.throw ("Failed to restart " ++ d.name ++ ": " ++ r.2)
  | none => do
      M.debugLog dbg ("Creating new container: " ++ d.name)
      match d.image with
      | none => M.throw "Docker datum missing image field"
      | some img => do
          let r ← docker_runCmd d.name (docker_run_args d img)
          if r.1 then wait_for_readyM d
          else M.throw ("Failed to create " ++ d.name ++ ": " ++ r.2)

/-- `start_service` (lines 424-429): only Docker datums act; all other
types are a no-op. -/
def start_service (dbg : Bool) (d : BootDatum) : M Unit :=
  match d.datum_type with
  | some .Docker => start_docker_service dbg d
  | _ => M.pure ()

/-- The explicit-dependency loop shared by `ensure_dependencies`
(lines 127-137, `inApi = false`) and `ensure_api_dependencies`
(lines 276-301, `inApi = true`); the two loops differ only in
`B00T_DEBUG`-gated logging.  Missing keys are skipped silently; a
dependency that needs starting is started and recorded. -/
def process_deps (dbg inApi : Bool) (dx : Index) : List String → M (List String)
  | [] => M.pure []
  | depKey :: rest =>
    match findDatum dx depKey with
    | none => do
        M.debugLogIf inApi dbg ("Dependency not found: " ++ depKey)
        process_deps dbg inApi dx rest
    | some depDatum => do
        let ns ← needs_start depDatum
        if ns then do
          M.debugLogIf inApi dbg ("Starting: " ++ depKey)
          M.context ("Failed to start " ++ depKey) (start_service dbg depDatum)
          let ls ← process_deps dbg inApi dx rest
          M.pure (depKey :: ls)
        else do
          M.debugLogIf inApi dbg ("Already running: " ++ depKey)
          process_deps dbg inApi dx rest

/-- Candidate set of `resolve_capability` (lines 176-188): all Api-typed
datums whose `provides.capability` equals the requested capability, in
index order. -/
def candidates_for (dx : Index) (cap : String) : List (String × BootDatum) :=
  List.filter
    (fun p => decide (p.2.datum_type = some DatumType.Api ∧
      Option.bind p.2.provides DatumProvides.capability = some cap)) dx

/-- The sort key of a candidate (lines 203-208): index of the first entry
of `prefer` that the candidate's key starts with; `prefer.length` when no
entry matches (`List.findIdx` returns the length on no match, exactly as
`position(..).unwrap_or(prefer.len())`). -/
def pref_key (ps : List String) (key : String) : Nat :=
  List.findIdx (fun p => strStartsWith key p) ps

/-- `candidates.sort_by_key` (lines 202-209): a stable sort by `pref_key`,
embedded as insertion sort (which is stable). -/
def sort_by_pref (ps : List String) (cs : List (String × BootDatum)) :
    List (String × BootDatum) :=
  List.insertionSort (fun a b => pref_key ps a.1 ≤ pref_key ps b.1) cs

/-- The candidate list in the order `resolve_capability` attempts it:
sorted by preference when `prefer` is present, index order otherwise. -/
def sorted_candidates (dx : Index) (cap : String) (req : CapabilityRequirement) :
    List (String × BootDatum) :=
  match req.prefer with
  | some ps => sort_by_pref ps (candidates_for dx cap)
  | none => candidates_for dx cap

/-- The capability-requirement loop shared by `ensure_dependencies`
(lines 140-154) and `ensure_api_dependencies` (lines 304-326),
parametrised by the recursive resolver. -/
def require_loop_aux (resolveF : String → CapabilityRequirement → M (List String))
    (dbg inApi : Bool) : List (String × CapabilityRequirement) → M (List String)
  | [] => M.pure []
  | (rname, req) :: rest =>
    match req.capability with
    | none => require_loop_aux resolveF dbg inApi rest
    | some cap => do
        M.debugLog dbg ((if inApi then "Resolving required capability "
          else "Requirement resolved via capability ") ++ cap ++ " for " ++ rname)
        let l ← resolveF cap req
        let ls ← require_loop_aux resolveF dbg inApi rest
        M.pure (l ++ ls)

/-- `ensure_api_dependencies` (lines 264-330), parametrised by the
recursive resolver: start the datum's own `depends_on`, then resolve its
`requires` capabilities. -/
def ensure_api_aux (resolveF : String → CapabilityRequirement → M (List String))
    (dbg : Bool) (dx : Index) (d : BootDatum) : M (List String) := do
  M.debugLog dbg ("Ensuring dependencies for API: " ++ d.name)
  let s1 ← process_deps dbg true dx (d.depends_on.getD [])
  let s2 ← require_loop_aux resolveF dbg true (d.requires.getD [])
  M.pure (s1 ++ s2)

/-- The fallback tail of `resolve_capability` (lines 227-259): when a
fallback is named and an Api-typed datum with that name exists, ensure its
dependencies (propagating whatever that returns); otherwise fail with the
capability-unresolved error. -/
def fallback_aux (apiF : BootDatum → M (List String)) (dbg : Bool) (dx : Index)
    (cap : String) (req : CapabilityRequirement) : M (List String) :=
  match req.fallback with
  | none => M.throw ("Failed to resolve capability: " ++ cap)
  | some fb =>
    match List.find? (fun p => decide (p.2.name = fb ∧
        p.2.datum_type = some DatumType.Api)) dx with
    | some kd => do
        M.debugLog dbg ("Found fallback API datum: " ++ kd.2.name)
        apiF kd.2
    | none => do
        M.debugLog dbg ("Fallback API datum not found: " ++ fb)
        M.throw ("Failed to resolve capability: " ++ cap)

/-- The candidate loop of `resolve_capability` (lines 211-225): attempt each
candidate in order; the first success is returned immediately; a failure is
logged as a warning and the next candidate is tried; when the list is
exhausted, fall through to the fallback tail. -/
def try_cands_aux (apiF : BootDatum → M (List String)) (afterAll : M (List String)) :
    List (String × BootDatum) → M (List String)
  | [] => afterAll
  | (k, d) :: rest => do
      let r ← M.attempt (apiF d)
      match r with
      | .ok l => M.pure l
      | .error e => do
          M.log (.warnFailedStart k e)
          try_cands_aux apiF afterAll rest

/-- The body of `resolve_capability` (lines 161-261), parametrised by the
recursive `ensure_api_dependencies`. -/
def resolve_aux (apiF : BootDatum → M (List String)) (dbg : Bool) (dx : Index)
    (cap : String) (req : CapabilityRequirement) : M (List String) := do
  M.debugLog dbg ("Resolving capability: " ++ cap)
  try_cands_aux apiF (fallback_aux apiF dbg dx cap req) (sorted_candidates dx cap req)

/-- `resolve_capability` (lines 161-261) with explicit fuel for the mutual
recursion with `ensure_api_dependencies`; one unit of fuel is consumed per
resolution cycle. -/
def resolve_capability (dbg : Bool) (dx : Index) :
    Nat → String → CapabilityRequirement → M (List String)
  | 0, cap, _ => M.throw ("Recursion limit resolving capability: " ++ cap)
  | fuel+1, cap, req =>
      resolve_aux (ensure_api_aux (resolve_capability dbg dx fuel) dbg dx) dbg dx cap req

/-- `ensure_api_dependencies` (lines 264-330). -/
def ensure_api_dependencies (dbg : Bool) (dx : Index) (fuel : Nat) (d : BootDatum) :
    M (List String) :=
  ensure_api_aux (resolve_capability dbg dx fuel) dbg dx d

/-- The fallback tail of `resolve_capability`, at the given fuel. -/
def resolve_fallback (dbg : Bool) (dx : Index) (fuel : Nat) (cap : String)
    (req : CapabilityRequirement) : M (List String) :=
  fallback_aux (fun d => ensure_api_dependencies dbg dx fuel d) dbg dx cap req

/-- The candidate loop of `resolve_capability`, at the given fuel. -/
def try_candidates (dbg : Bool) (dx : Index) (fuel : Nat) (cap : String)
    (req : CapabilityRequirement) (cs : List (String × BootDatum)) : M (List String) :=
  try_cands_aux (fun d => ensure_api_dependencies dbg dx fuel d)
    (resolve_fallback dbg dx fuel cap req) cs

/-- `ensure_dependencies` (lines 116-157): look the datum up (missing key is
a hard error), start its explicit dependencies, then resolve its capability
requirements. -/
def ensure_dependencies (dbg : Bool) (dx : Index) (fuel : Nat) (key : String) :
    M (List String) :=
  match findDatum dx key with
  | none => M.throw ("Datum not found: " ++ key)
  | some d => do
      let s1 ← process_deps dbg false dx (d.depends_on.getD [])
      let s2 ← require_loop_aux (resolve_capability dbg dx fuel) dbg false
        (d.requires.getD [])
      M.pure (s1 ++ s2)

/-! ### Raw stdout parsing of the two container-state queries -/

/-- The parsing step of `is_docker_running` (lines 359-363): given the stdout
lines of `<runtime> ps --filter name=^n$ --format {{.Names}}`, the container
counts as running exactly when some line, trimmed, equals the name. -/
def is_docker_running_lines (lines : List String) (name : String) : Bool :=
  lines.any (fun line => strTrim line == name)

/-- The parsing loop of `docker_container_exists` (lines 392-421): given the
stdout lines of `<runtime> ps -a --format {{.Names}}|||{{.Status}}`, the
first line that splits on `|||` into exactly two parts whose name part,
trimmed, equals the queried name decides the answer: running iff the status
part, trimmed, starts with `Up`.  No matching line means the container does
not exist. -/
def docker_container_exists_lines (name : String) : List String → Option Bool
  | [] => none
  | line :: rest =>
    match strSplitBars line with
    | [a, st] =>
        if strTrim a = name then some (strStartsWith (strTrim st) "Up")
        else docker_container_exists_lines name rest
    | _ => docker_container_exists_lines name rest

/-! ### Timing model of `wait_for_ready` -/

/-- Events of one `wait_for_ready` execution: a poll of the running-state
check (with its outcome) or a sleep of the given number of milliseconds. -/
inductive WaitEv
  | poll (running : Bool)
  | sleepMs (ms : Nat)
deriving DecidableEq

/-- The polling loop of `wait_for_ready` (lines 524-532) over an observation
oracle giving the outcome of the i-th running-state check: on a successful
poll, one 500 ms grace sleep and success; on a failed poll, a 200 ms sleep
and the next attempt; on exhaustion, the timeout error naming the
container. -/
def wait_loop_trace (obs : Nat → Bool) (name : String) :
    Nat → Nat → Except String Unit × List WaitEv
  | _, 0 => (.error ("Timeout waiting for " ++ name ++ " to start"), [])
  | i, r+1 =>
    if obs i then (.ok (), [WaitEv.poll true, WaitEv.sleepMs 500])
    else
      let rest := wait_loop_trace obs name (i+1) r
      (rest.1, WaitEv.poll false :: WaitEv.sleepMs 200 :: rest.2)

/-- `wait_for_ready` (lines 520-535): `max_attempts = 30`, starting at the
first observation. -/
def wait_for_ready_trace (obs : Nat → Bool) (name : String) :
    Except String Unit × List WaitEv :=
  wait_loop_trace obs name 0 30

/-- Whether a wait event is a poll of the running-state check. -/
def isPoll : WaitEv → Bool
  | .poll _ => true
  | _ => false

/-! ### Predicates used in the statements -/

/-- Whether an invocation is a container create or restart (as opposed to a
read-only state query). -/
def isAction : Inv → Bool
  | .start _ => true
  | .run _ _ => true
  | _ => false

/-- Whether an invocation is a create or restart of the named container. -/
def actionOn (n : String) : Inv → Bool
  | .start m => m == n
  | .run m _ => m == n
  | _ => false

/-- The resolution-relevant projection of an outcome: value, final world and
runtime invocations — everything except the diagnostic log. -/
def codeOf (o : Out α) : Except String α × World × List Inv := (o.val, o.w, o.invs)

/-- `k` is the key of an index entry whose datum is Docker-typed. -/
def dockerKey (dx : Index) (k : String) : Prop :=
  ∃ d, findDatum dx k = some d ∧ d.datum_type = some DatumType.Docker

/-- If the named container is observed running initially, the outcome keeps
it running and issues no create or restart naming it. -/
def RunPres (n : String) (w : World) (o : Out α) : Prop :=
  w.state n = ContState.Running →
    (o.w.state n = ContState.Running ∧ o.invs.filter (actionOn n) = [])

/-- The outcome leaves the world unchanged and issues no create or restart
invocation at all. -/
def Quiet (w : World) (o : Out α) : Prop :=
  o.w = w ∧ o.invs.filter isAction = []

/-- Every Docker-typed datum of the index has its container observed
running. -/
def AllRunning (dx : Index) (w : World) : Prop :=
  ∀ p ∈ dx, p.2.datum_type = some DatumType.Docker →
    w.state p.2.name = ContState.Running

/-- Whether an `Except` outcome is an error. -/
def exceptIsErr : Except String α → Bool
  | .error _ => true
  | .ok _ => false

/-- The world after attempting (and discarding the outcome of) the recursive
resolution of each listed candidate in order. -/
def after_fails (dbg : Bool) (dx : Index) (fuel : Nat) :
    World → List (String × BootDatum) → World
  | w, [] => w
  | w, c :: cs =>
      after_fails dbg dx fuel ((ensure_api_dependencies dbg dx fuel c.2 w).w) cs

/-- Sequentially attempting the recursive resolution of each listed
candidate fails for every one of them. -/
def fails_all (dbg : Bool) (dx : Index) (fuel : Nat) :
    World → List (String × BootDatum) → Prop
  | _, [] => True
  | w, c :: cs =>
      exceptIsErr (ensure_api_dependencies dbg dx fuel c.2 w).val = true ∧
      fails_all dbg dx fuel ((ensure_api_dependencies dbg dx fuel c.2 w).w) cs

/-! ### Concrete fixtures for witnesses and counterexamples -/

/-- A minimal world: docker available, every container absent, restarts
succeed, creates fail with stderr `boom`. -/
def wBoom : World where
  docker := true
  podman := false
  state := fun _ => ContState.Absent
  startOk := fun _ => true
  startErr := fun _ => "serr"
  runOk := fun _ => false
  runErr := fun _ => "boom"

/-- A world where every container is absent and every runtime action
succeeds. -/
def wFresh : World where
  docker := true
  podman := false
  state := fun _ => ContState.Absent
  startOk := fun _ => true
  startErr := fun _ => "serr"
  runOk := fun _ => true
  runErr := fun _ => "rerr"

/-- A world where every container is already running. -/
def wAllUp : World where
  docker := true
  podman := false
  state := fun _ => ContState.Running
  startOk := fun _ => true
  startErr := fun _ => "serr"
  runOk := fun _ => true
  runErr := fun _ => "rerr"

/-- A world where every container exists but is stopped, and every runtime
action succeeds. -/
def wStopped : World where
  docker := true
  podman := false
  state := fun _ => ContState.Stopped
  startOk := fun _ => true
  startErr := fun _ => "serr"
  runOk := fun _ => true
  runErr := fun _ => "rerr"

/-- A Docker datum for the qdrant container. -/
def qdrantD : BootDatum where
  name := "qdrant"
  datum_type := some DatumType.Docker
  depends_on := none
  requires := none
  provides := none
  image := some "qdrant/qdrant"
  docker_args := some ["-p", "6333:6333"]
  env := some [("QDRANT__LOG_LEVEL", "INFO")]

/-- An Api datum named `local` depending on the qdrant container. -/
def localD : BootDatum where
  name := "local"
  datum_type := some DatumType.Api
  depends_on := some ["qdrant.docker"]
  requires := none
  provides := none
  image := none
  docker_args := none
  env := none

/-- A small index with the qdrant container and the `local` Api datum. -/
def dxLocal : Index := [("qdrant.docker", qdrantD), ("local.api", localD)]

/-- A requirement for capability `embeddings` with fallback `local` and no
preference list. -/
def reqEmb : CapabilityRequirement where
  capability := some "embeddings"
  prefer := none
  fallback := some "local"

/-- An Api datum providing capability `x`, with no dependencies. -/
def apiProviderD (nm : String) : BootDatum where
  name := nm
  datum_type := some DatumType.Api
  depends_on := none
  requires := none
  provides := some ⟨some "x"⟩
  image := none
  docker_args := none
  env := none

/-- Candidate index of the preference-ordering example: `A-svc`, `B-svc`
and `C-svc` all provide capability `x`. -/
def dxABC : Index :=
  [("A-svc", apiProviderD "A"), ("B-svc", apiProviderD "B"),
   ("C-svc", apiProviderD "C")]

/-- The preference-ordering example requirement: `prefer = ["B"]`. -/
def reqPreferB : CapabilityRequirement where
  capability := some "x"
  prefer := some ["B"]
  fallback := none

/-- An Api datum providing capability `emb` whose own infrastructure
dependency is the (uncreatable) qdrant container. -/
def badApiD : BootDatum where
  name := "bad"
  datum_type := some DatumType.Api
  depends_on := some ["qdrant.docker"]
  requires := none
  provides := some ⟨some "emb"⟩
  image := none
  docker_args := none
  env := none

/-- An Api datum providing capability `emb` with no dependencies. -/
def goodApiD : BootDatum where
  name := "good"
  datum_type := some DatumType.Api
  depends_on := none
  requires := none
  provides := some ⟨some "emb"⟩
  image := none
  docker_args := none
  env := none

/-- Index for the short-circuit example: the failing provider enumerates
before the succeeding one. -/
def dxBadGood : Index :=
  [("qdrant.docker", qdrantD), ("bad.api", badApiD), ("good.api", goodApiD)]

/-- Requirement for capability `emb`, no preference, no fallback. -/
def reqEmbPlain : CapabilityRequirement where
  capability := some "emb"
  prefer := none
  fallback := none

/-- An Mcp datum (session-managed, never orchestrated). -/
def mcpD : BootDatum where
  name := "github"
  datum_type := some DatumType.Mcp
  depends_on := none
  requires := none
  provides := none
  image := none
  docker_args := none
  env := none

/-- A datum whose dependency list names a missing key before a real Docker
dependency. -/
def ghostDepD : BootDatum where
  name := "app"
  datum_type := some DatumType.Cli
  depends_on := some ["ghost.docker", "qdrant.docker"]
  requires := none
  provides := none
  image := none
  docker_args := none
  env := none

/-- Index for the silently-skipped-dependency example. -/
def dxGhost : Index := [("app.cli", ghostDepD), ("qdrant.docker", qdrantD)]

/-! ## Infrastructure lemmas about the computation model -/

@[simp] theorem M.bind_eq (x : M α) (f : α → M β) : x >>= f = M.bind x f := rfl

@[simp] theorem M.pure_eq (a : α) : (Pure.pure a : M α) = M.pure a := rfl

@[simp] theorem M.pure_apply (a : α) (w : World) : M.pure a w = ⟨.ok a, w, [], []⟩ := rfl

@[simp] theorem M.throw_apply (e : String) (w : World) :
    (M.throw e : M α) w = ⟨.error e, w, [], []⟩ := rfl

@[simp] theorem M.log_apply (ev : LogEv) (w : World) :
    M.log ev w = ⟨.ok (), w, [], [ev]⟩ := rfl

theorem M.debugLog_apply (dbg : Bool) (s : String) (w : World) :
    M.debugLog dbg s w = ⟨.ok (), w, [], if dbg then [.debug s] else []⟩ := rfl

theorem M.debugLogIf_apply (cond dbg : Bool) (s : String) (w : World) :
    M.debugLogIf cond dbg s w = ⟨.ok (), w, [], if cond && dbg then [.debug s] else []⟩ := rfl

@[simp] theorem setRunning_docker (w : World) (n : String) :
    (setRunning w n).docker = w.docker := rfl

@[simp] theorem setRunning_podman (w : World) (n : String) :
    (setRunning w n).podman = w.podman := rfl

@[simp] theorem setRunning_startOk (w : World) (n m : String) :
    (setRunning w n).startOk m = w.startOk m := rfl

@[simp] theorem setRunning_runOk (w : World) (n m : String) :
    (setRunning w n).runOk m = w.runOk m := rfl

@[simp] theorem setRunning_state_self (w : World) (n : String) :
    (setRunning w n).state n = ContState.Running := by
  simp [setRunning]

theorem setRunning_state_ne (w : World) {n m : String} (h : m ≠ n) :
    (setRunning w n).state m = w.state m := by
  simp [setRunning, h]

@[simp] theorem M.pure_bind (a : α) (f : α → M β) : M.bind (M.pure a) f = f a := by
  funext w
  show (match (M.pure a w).val with
    | .error e => Out.mk (.error e) (M.pure a w).w (M.pure a w).invs (M.pure a w).logs
    | .ok a' => ⟨(f a' w).val, (f a' w).w, [] ++ (f a' w).invs, [] ++ (f a' w).logs⟩) = f a w
  simp only [M.pure_apply, List.nil_append]

theorem M.bind_apply (x : M α) (f : α → M β) (w : World) :
    M.bind x f w =
      match (x w).val with
      | .error e => ⟨.error e, (x w).w, (x w).invs, (x w).logs⟩
      | .ok a => ⟨(f a (x w).w).val, (f a (x w).w).w,
          (x w).invs ++ (f a (x w).w).invs, (x w).logs ++ (f a (x w).w).logs⟩ := rfl

theorem M.bind_apply_ok {x : M α} {f : α → M β} {w : World} {a : α}
    (h : (x w).val = .ok a) :
    M.bind x f w = ⟨(f a (x w).w).val, (f a (x w).w).w,
      (x w).invs ++ (f a (x w).w).invs, (x w).logs ++ (f a (x w).w).logs⟩ := by
  rw [M.bind_apply, h]

theorem M.bind_apply_err {x : M α} {f : α → M β} {w : World} {e : String}
    (h : (x w).val = .error e) :
    M.bind x f w = ⟨.error e, (x w).w, (x w).invs, (x w).logs⟩ := by
  rw [M.bind_apply, h]

theorem M.bind_ok_inv {x : M α} {f : α → M β} {w : World} {b : β}
    (h : (M.bind x f w).val = .ok b) :
    ∃ a, (x w).val = .ok a ∧ (f a (x w).w).val = .ok b := by
  rcases hx : (x w).val with e | a
  · rw [M.bind_apply_err hx] at h
    exact absurd h (by simp)
  · rw [M.bind_apply_ok hx] at h
    exact ⟨a, rfl, h⟩

/-! ## Claim C5: readiness polling budget and timing -/

theorem wait_loop_trace_all_fail (obs : Nat → Bool) (name : String) :
    ∀ (r i : Nat), (∀ j, j < r → obs (i + j) = false) →
      wait_loop_trace obs name i r =
        (.error ("Timeout waiting for " ++ name ++ " to start"),
         (List.replicate r [WaitEv.poll false, WaitEv.sleepMs 200]).flatten) := by
  intro r
  induction r with
  | zero => intro i _; rfl
  | succ r ih =>
      intro i h
      have h0 : obs i = false := by simpa using h 0 (Nat.succ_pos r)
      have hrec := ih (i + 1) (fun j hj => by
        have : i + 1 + j = i + (j + 1) := by omega
        rw [this]
        exact h (j + 1) (by omega))
      simp only [wait_loop_trace, h0, if_false, hrec, List.replicate_succ, List.flatten_cons]
      rfl

theorem wait_loop_trace_first_true (obs : Nat → Bool) (name : String) :
    ∀ (j r i : Nat), j < r → obs (i + j) = true → (∀ k, k < j → obs (i + k) = false) →
      wait_loop_trace obs name i r =
        (.ok (), (List.replicate j [WaitEv.poll false, WaitEv.sleepMs 200]).flatten
          ++ [WaitEv.poll true, WaitEv.sleepMs 500]) := by
  intro j
  induction j with
  | zero =>
      intro r i hr hobs _
      obtain ⟨r', rfl⟩ : ∃ r', r = r' + 1 := ⟨r - 1, by omega⟩
      have h0 : obs i = true := by simpa using hobs
      simp only [wait_loop_trace, h0, if_true, List.replicate_zero, List.flatten_nil,
        List.nil_append]
  | succ j ih =>
      intro r i hr hobs hbefore
      obtain ⟨r', rfl⟩ : ∃ r', r = r' + 1 := ⟨r - 1, by omega⟩
      have h0 : obs i = false := by simpa using hbefore 0 (Nat.succ_pos j)
      have hrec := ih r' (i + 1) (by omega)
        (by have : i + 1 + j = i + (j + 1) := by omega
            rw [this]; exact hobs)
        (fun k hk => by
          have : i + 1 + k = i + (k + 1) := by omega
          rw [this]; exact hbefore (k + 1) (by omega))
      simp only [wait_loop_trace, h0, if_false, hrec, List.replicate_succ, List.flatten_cons]
      rfl

/-- Claim C5: `wait_for_ready` polls the running-state check at a fixed
200 ms interval for a budget of 30 attempts; if no attempt observes the
container running it fails after exactly 30 attempts — never fewer, never
more — with a timeout error naming the container, and on the first attempt
that observes running it applies one extra 500 ms grace delay and returns
success. -/
theorem claim_C5_wait_for_ready (obs : Nat → Bool) (name : String) :
    ((∀ i, i < 30 → obs i = false) →
      wait_for_ready_trace obs name =
        (.error ("Timeout waiting for " ++ name ++ " to start"),
         (List.replicate 30 [WaitEv.poll false, WaitEv.sleepMs 200]).flatten) ∧
      ((wait_for_ready_trace obs name).2.countP isPoll = 30)) ∧
    (∀ j, j < 30 → obs j = true → (∀ i, i < j → obs i = false) →
      wait_for_ready_trace obs name =
        (.ok (), (List.replicate j [WaitEv.poll false, WaitEv.sleepMs 200]).flatten
          ++ [WaitEv.poll true, WaitEv.sleepMs 500])) := by
  constructor
  · intro h
    have := wait_loop_trace_all_fail obs name 30 0 (fun j hj => by simpa using h j hj)
    refine ⟨this, ?_⟩
    rw [show wait_for_ready_trace obs name = wait_loop_trace obs name 0 30 from rfl, this]
    show (List.replicate 30 [WaitEv.poll false, WaitEv.sleepMs 200]).flatten.countP isPoll = 30
    decide
  · intro j hj hobs hbefore
    have := wait_loop_trace_first_true obs name j 30 0 hj (by simpa using hobs)
      (fun k hk => by simpa using hbefore k hk)
    exact this

/-- Witness for C5: with an oracle that never reports running, the wait
fails with the timeout error after exactly 30 polls; with an oracle first
reporting running at attempt 2, it succeeds after 3 polls and the grace
sleep. -/
theorem claim_C5_wait_for_ready_witness :
    (wait_for_ready_trace (fun _ => false) "qdrant" =
      (.error "Timeout waiting for qdrant to start",
       (List.replicate 30 [WaitEv.poll false, WaitEv.sleepMs 200]).flatten) ∧
     (wait_for_ready_trace (fun _ => false) "qdrant").2.countP isPoll = 30) ∧
    wait_for_ready_trace (fun i => decide (2 ≤ i)) "qdrant" =
      (.ok (), (List.replicate 2 [WaitEv.poll false, WaitEv.sleepMs 200]).flatten
        ++ [WaitEv.poll true, WaitEv.sleepMs 500]) := by
  constructor
  · exact (claim_C5_wait_for_ready (fun _ => false) "qdrant").1 (fun i _ => rfl)
  · exact (claim_C5_wait_for_ready (fun i => decide (2 ≤ i)) "qdrant").2 2
      (by decide) (by decide) (fun i hi => by
        interval_cases i <;> decide)

/-! ## Claim C8: exact-name matching of the container-state queries -/

theorem docker_container_exists_lines_some (name : String) :
    ∀ (lines : List String) (b : Bool),
      docker_container_exists_lines name lines = some b →
      ∃ line ∈ lines, ∃ a st, strSplitBars line = [a, st] ∧ strTrim a = name ∧
        b = strStartsWith (strTrim st) "Up" := by
  intro lines
  induction lines with
  | nil => intro b h; exact absurd h (by simp [docker_container_exists_lines])
  | cons line rest ih =>
      intro b h
      unfold docker_container_exists_lines at h
      split at h
      · next a st hsp =>
          split at h
          · next heq =>
              refine ⟨line, List.mem_cons_self _ _, a, st, hsp, heq, ?_⟩
              simpa using h.symm
          · obtain ⟨l, hl, rest'⟩ := ih b h
            exact ⟨l, List.mem_cons_of_mem _ hl, rest'⟩
      · obtain ⟨l, hl, rest'⟩ := ih b h
        exact ⟨l, List.mem_cons_of_mem _ hl, rest'⟩

theorem docker_container_exists_lines_none (name : String) :
    ∀ (lines : List String),
      (∀ line ∈ lines, ∀ a st, strSplitBars line = [a, st] → strTrim a ≠ name) →
      docker_container_exists_lines name lines = none := by
  intro lines
  induction lines with
  | nil => intro _; rfl
  | cons line rest ih =>
      intro h
      unfold docker_container_exists_lines
      split
      · next a st hsp =>
          rw [if_neg (h line (List.mem_cons_self _ _) a st hsp)]
          exact ih (fun l hl => h l (List.mem_cons_of_mem _ hl))
      · exact ih (fun l hl => h l (List.mem_cons_of_mem _ hl))

/-- Claim C8: both container-state queries match container names exactly:
`is_docker_running` reports running iff some output line, trimmed, equals
the queried name; `docker_container_exists` answers only from a
`name|||status` line whose name field, trimmed, equals the queried name
(with running iff the status starts with `Up`), and answers `none` when no
line's name field equals the queried name exactly — so a container whose
name merely contains, is a prefix of, or extends the queried name is never
selected. -/
theorem claim_C8_exact_name_matching :
    (∀ (lines : List String) (name : String),
      is_docker_running_lines lines name = true ↔
        ∃ line ∈ lines, strTrim line = name) ∧
    (∀ (lines : List String) (name : String) (b : Bool),
      docker_container_exists_lines name lines = some b →
      ∃ line ∈ lines, ∃ a st, strSplitBars line = [a, st] ∧ strTrim a = name ∧
        b = strStartsWith (strTrim st) "Up") ∧
    (∀ (lines : List String) (name : String),
      (∀ line ∈ lines, ∀ a st, strSplitBars line = [a, st] → strTrim a ≠ name) →
      docker_container_exists_lines name lines = none) := by
  refine ⟨?_, ?_, ?_⟩
  · intro lines name
    simp [is_docker_running_lines, List.any_eq_true, beq_iff_eq]
  · intro lines name b h
    exact docker_container_exists_lines_some name lines b h
  · intro lines name h
    exact docker_container_exists_lines_none name lines h

/-- Witness for C8: lines naming containers `qdrant2` and `myqdrant` (an
extension and a superstring of `qdrant`) never select `qdrant`: the running
query rejects them and the existence query answers `none`. -/
theorem claim_C8_exact_name_matching_witness :
    docker_container_exists_lines "qdrant"
      ["qdrant2|||Up 5 minutes", "myqdrant|||Exited (0) 2 days ago"] = none ∧
    is_docker_running_lines ["qdrant2", "myqdrant"] "qdrant" = false := by
  constructor
  · exact claim_C8_exact_name_matching.2.2
      ["qdrant2|||Up 5 minutes", "myqdrant|||Exited (0) 2 days ago"] "qdrant"
      (by intro line hl
          fin_cases hl
          · intro a st hsp
            have hh : (["qdrant2", "Up 5 minutes"] : List String) = [a, st] :=
              (show strSplitBars "qdrant2|||Up 5 minutes" =
                ["qdrant2", "Up 5 minutes"] from rfl).symm.trans hsp
            injection hh with h1 h2
            rw [← h1]
            decide
          · intro a st hsp
            have hh : (["myqdrant", "Exited (0) 2 days ago"] : List String) = [a, st] :=
              (show strSplitBars "myqdrant|||Exited (0) 2 days ago" =
                ["myqdrant", "Exited (0) 2 days ago"] from rfl).symm.trans hsp
            injection hh with h1 h2
            rw [← h1]
            decide)
  · decide

/-! ## Claim C1: preference ordering of capability candidates -/

theorem filter_key_orderedInsert {α : Type} (key : α → Nat) (a : α) (k : Nat) :
    ∀ l : List α,
      (List.orderedInsert (fun x y => key x ≤ key y) a l).filter (fun x => key x == k) =
        if key a = k then a :: l.filter (fun x => key x == k)
        else l.filter (fun x => key x == k) := by
  intro l
  induction l with
  | nil =>
      by_cases h : key a = k <;>
        simp [List.orderedInsert, List.filter_cons, h]
  | cons b t ih =>
      by_cases hab : key a ≤ key b
      · rw [show List.orderedInsert (fun x y => key x ≤ key y) a (b :: t) = a :: b :: t from by
          simp [List.orderedInsert, hab]]
        by_cases h : key a = k <;> by_cases hb : key b = k <;>
          simp [List.filter_cons, h, hb]
      · rw [show List.orderedInsert (fun x y => key x ≤ key y) a (b :: t) =
            b :: List.orderedInsert (fun x y => key x ≤ key y) a t from by
          simp [List.orderedInsert, hab]]
        by_cases h : key a = k
        · have hb : ¬(key b = k) := by omega
          simp [List.filter_cons, h, hb, ih]
        · by_cases hb : key b = k <;> simp [List.filter_cons, h, hb, ih]

theorem filter_key_insertionSort {α : Type} (key : α → Nat) (k : Nat) :
    ∀ l : List α,
      (List.insertionSort (fun x y => key x ≤ key y) l).filter (fun x => key x == k) =
        l.filter (fun x => key x == k) := by
  intro l
  induction l with
  | nil => rfl
  | cons a t ih =>
      show (List.orderedInsert _ a (List.insertionSort _ t)).filter _ = _
      rw [filter_key_orderedInsert key a k, ih]
      by_cases h : key a = k <;> simp [List.filter_cons, h]

theorem sorted_key_split {α : Type} (key : α → Nat) (B : Nat) :
    ∀ l : List α, List.Sorted (fun x y => key x ≤ key y) l → (∀ x ∈ l, key x ≤ B) →
      l = l.filter (fun x => decide (key x < B)) ++ l.filter (fun x => key x == B) := by
  intro l
  induction l with
  | nil => intro _ _; rfl
  | cons a t ih =>
      intro hs hb
      rw [List.sorted_cons] at hs
      by_cases ha : key a < B
      · have h1 : (a :: t).filter (fun x => decide (key x < B)) =
            a :: t.filter (fun x => decide (key x < B)) := by
          simp [List.filter_cons, ha]
        have h2 : (a :: t).filter (fun x => key x == B) = t.filter (fun x => key x == B) := by
          simp [List.filter_cons]
          omega
        rw [h1, h2, List.cons_append]
        exact congrArg _ (ih hs.2 (fun x hx => hb x (List.mem_cons_of_mem _ hx)))
      · have haB : key a = B := by
          have := hb a (List.mem_cons_self _ _)
          omega
        have hall : ∀ x ∈ t, key x = B := by
          intro x hx
          have h1 := hs.1 x hx
          have h2 := hb x (List.mem_cons_of_mem _ hx)
          omega
        have h1 : (a :: t).filter (fun x => decide (key x < B)) = [] := by
          rw [List.filter_eq_nil_iff]
          intro x hx
          rcases List.mem_cons.mp hx with rfl | hx
          · simp; omega
          · have := hall x hx; simp; omega
        have h2 : (a :: t).filter (fun x => key x == B) = a :: t := by
          have : (a :: t).filter (fun x => key x == B) = a :: t ↔
              ∀ x ∈ a :: t, (key x == B) = true := List.filter_eq_self
          rw [this]
          intro x hx
          rcases List.mem_cons.mp hx with rfl | hx
          · simp [haB]
          · simp [hall x hx]
        rw [h1, h2, List.nil_append]

/-- Claim C1: with a `prefer` list present, the candidate set (all Api-typed
datums providing the requested capability) is stably sorted by the index of
the first prefix in `prefer` that the candidate's key starts with: the
attempted list is sorted by that key, each key class keeps its original
relative order, candidates matching no prefix (key = `prefer.length`) form
the suffix after all matched candidates in original relative order, and
`resolve_capability` attempts exactly this list in this order. -/
theorem claim_C1_preference_order (dx : Index) (cap : String)
    (req : CapabilityRequirement) (ps : List String) (hp : req.prefer = some ps) :
    List.Sorted (fun a b => pref_key ps a.1 ≤ pref_key ps b.1)
      (sorted_candidates dx cap req) ∧
    (∀ k : Nat, (sorted_candidates dx cap req).filter (fun c => pref_key ps c.1 == k) =
       (candidates_for dx cap).filter (fun c => pref_key ps c.1 == k)) ∧
    sorted_candidates dx cap req =
      (sorted_candidates dx cap req).filter
          (fun c => decide (pref_key ps c.1 < ps.length))
        ++ (candidates_for dx cap).filter (fun c => pref_key ps c.1 == ps.length) ∧
    (∀ c : String × BootDatum,
      (pref_key ps c.1 < ps.length ↔ ∃ p ∈ ps, strStartsWith c.1 p = true)) ∧
    (∀ (dbg : Bool) (fuel : Nat) (w : World),
      resolve_capability dbg dx (fuel+1) cap req w =
        M.bind (M.debugLog dbg ("Resolving capability: " ++ cap))
          (fun _ => try_candidates dbg dx fuel cap req (sorted_candidates dx cap req)) w) := by
  have hs : sorted_candidates dx cap req =
      List.insertionSort (fun a b => pref_key ps a.1 ≤ pref_key ps b.1)
        (candidates_for dx cap) := by
    simp [sorted_candidates, hp, sort_by_pref]
  have hsorted : List.Sorted (fun a b => pref_key ps a.1 ≤ pref_key ps b.1)
      (sorted_candidates dx cap req) := by
    rw [hs]
    haveI : IsTotal (String × BootDatum) (fun a b => pref_key ps a.1 ≤ pref_key ps b.1) :=
      ⟨fun a b => Nat.le_total _ _⟩
    haveI : IsTrans (String × BootDatum) (fun a b => pref_key ps a.1 ≤ pref_key ps b.1) :=
      ⟨fun _ _ _ hab hbc => le_trans hab hbc⟩
    exact List.sorted_insertionSort _ _
  have hstable : ∀ k : Nat,
      (sorted_candidates dx cap req).filter (fun c => pref_key ps c.1 == k) =
        (candidates_for dx cap).filter (fun c => pref_key ps c.1 == k) := by
    intro k
    rw [hs]
    exact filter_key_insertionSort (fun c => pref_key ps c.1) k (candidates_for dx cap)
  refine ⟨hsorted, hstable, ?_, ?_, ?_⟩
  · have hb : ∀ c ∈ sorted_candidates dx cap req, pref_key ps c.1 ≤ ps.length := by
      intro c _
      exact List.findIdx_le_length _
    have := sorted_key_split (fun c : String × BootDatum => pref_key ps c.1) ps.length
      (sorted_candidates dx cap req) hsorted hb
    rw [← hstable ps.length]
    exact this
  · intro c
    constructor
    · intro h
      exact List.findIdx_lt_length.mp h
    · intro h
      exact List.findIdx_lt_length.mpr h
  · intro dbg fuel w
    rfl

/-- Witness for C1: candidates `A-svc`, `B-svc`, `C-svc` providing
capability `x` with `prefer = ["B"]` are attempted as `B-svc` first, then
`A-svc` and `C-svc` in original relative order. -/
theorem claim_C1_preference_order_witness :
    sorted_candidates dxABC "x" reqPreferB =
      [("B-svc", apiProviderD "B"), ("A-svc", apiProviderD "A"),
       ("C-svc", apiProviderD "C")] ∧
    List.Sorted (fun a b => pref_key ["B"] a.1 ≤ pref_key ["B"] b.1)
      (sorted_candidates dxABC "x" reqPreferB) := by
  constructor
  · rfl
  · exact (claim_C1_preference_order dxABC "x" reqPreferB ["B"] rfl).1

/-! ## Claim C4: the Docker start state machine -/

theorem get_container_runtime_avail (w : World) (h : w.docker = true ∨ w.podman = true) :
    ∃ rt, get_container_runtime w = ⟨.ok rt, w, [], []⟩ := by
  by_cases hd : w.docker = true
  · exact ⟨"docker", by simp [get_container_runtime, hd]⟩
  · have hp : w.podman = true := h.resolve_left hd
    exact ⟨"podman", by simp [get_container_runtime, hd, hp]⟩

theorem is_docker_runningM_eval (n : String) (w : World)
    (h : w.docker = true ∨ w.podman = true) :
    is_docker_runningM n w =
      ⟨.ok (decide (w.state n = ContState.Running)), w, [Inv.ps n], []⟩ := by
  obtain ⟨rt, hrt⟩ := get_container_runtime_avail w h
  show M.bind get_container_runtime (fun _ => observe_ps n) w = _
  rw [M.bind_apply, hrt]
  rfl

theorem docker_container_existsM_eval (dbg : Bool) (n : String) (w : World)
    (h : w.docker = true ∨ w.podman = true) :
    docker_container_existsM dbg n w =
      ⟨.ok (match w.state n with
            | .Running => some true | .Stopped => some false | .Absent => none),
       w, [Inv.psAll n],
       if dbg then [.debug ("docker_container_exists " ++ n)] else []⟩ := by
  obtain ⟨rt, hrt⟩ := get_container_runtime_avail w h
  show M.bind get_container_runtime _ w = _
  rw [M.bind_apply, hrt]
  dsimp only [M.bind_eq]
  rw [M.bind_apply]
  dsimp only [observe_ps_all]
  rw [M.bind_apply, M.debugLog_apply]
  simp [M.pure]

theorem wait_loopM_running (n : String) (k : Nat) (w : World)
    (h : w.docker = true ∨ w.podman = true) (hs : w.state n = ContState.Running) :
    wait_loopM n (k+1) w = ⟨.ok (), w, [Inv.ps n], []⟩ := by
  show M.bind (is_docker_runningM n) _ w = _
  rw [M.bind_apply, is_docker_runningM_eval n w h]
  simp [hs, M.pure]

theorem wait_for_readyM_running (d : BootDatum) (w : World)
    (h : w.docker = true ∨ w.podman = true) (hs : w.state d.name = ContState.Running) :
    wait_for_readyM d w = ⟨.ok (), w, [Inv.ps d.name], []⟩ := by
  show wait_loopM d.name 30 w = _
  rw [show (30 : Nat) = 29 + 1 from rfl]
  exact wait_loopM_running d.name 29 w h hs

/-- Claim C4: starting a Docker-typed datum issues exactly one runtime
action determined by the observed container state — none when Running
(immediate success, world unchanged), a restart of the existing container
when Stopped, a create built from `image`, the `docker_args` verbatim in
order and each `env` entry as a separate `-e key=value` pair when Absent;
a non-zero exit of the restart or create fails immediately (exactly one
action, no retry) surfacing the runtime's stderr; and in all three cases,
on success, a subsequent state observation reports Running. -/
theorem claim_C4_docker_state_machine (dbg : Bool) (d : BootDatum) (w : World)
    (hrt : w.docker = true ∨ w.podman = true)
    (ht : d.datum_type = some DatumType.Docker) :
    (start_service dbg d = start_docker_service dbg d) ∧
    (w.state d.name = ContState.Running →
      (start_docker_service dbg d w).val = .ok () ∧
      (start_docker_service dbg d w).w = w ∧
      (start_docker_service dbg d w).invs.filter isAction = []) ∧
    (w.state d.name = ContState.Stopped →
      (start_docker_service dbg d w).invs.filter isAction = [Inv.start d.name] ∧
      (w.startOk d.name = false →
        (start_docker_service dbg d w).val =
          .error ("Failed to restart " ++ d.name ++ ": " ++ w.startErr d.name)) ∧
      (w.startOk d.name = true →
        (start_docker_service dbg d w).val = .ok () ∧
        (start_docker_service dbg d w).w.state d.name = ContState.Running)) ∧
    (∀ img, w.state d.name = ContState.Absent → d.image = some img →
      (start_docker_service dbg d w).invs.filter isAction =
        [Inv.run d.name (["run", "-d", "--name", d.name] ++ d.docker_args.getD []
          ++ (d.env.getD []).flatMap (fun kv => ["-e", kv.1 ++ "=" ++ kv.2])
          ++ [img])] ∧
      (w.runOk d.name = false →
        (start_docker_service dbg d w).val =
          .error ("Failed to create " ++ d.name ++ ": " ++ w.runErr d.name)) ∧
      (w.runOk d.name = true →
        (start_docker_service dbg d w).val = .ok () ∧
        (start_docker_service dbg d w).w.state d.name = ContState.Running)) := by
  obtain ⟨rt, hrtev⟩ := get_container_runtime_avail w hrt
  have e2 := docker_container_existsM_eval dbg d.name w hrt
  refine ⟨?_, ?_, ?_, ?_⟩
  · funext w'
    simp [start_service, ht]
  · intro hs
    rw [hs] at e2
    have hmain : start_docker_service dbg d w =
        ⟨.ok (), w, [Inv.psAll d.name],
         (if dbg then [.debug ("docker_container_exists " ++ d.name)] else []) ++
         (if dbg then [.debug ("Container " ++ d.name ++ " already running")] else [])⟩ := by
      show M.bind get_container_runtime _ w = _
      rw [M.bind_apply, hrtev]
      dsimp only [M.bind_eq]
      rw [M.bind_apply, e2]
      dsimp only
      simp [M.debugLog]
    rw [hmain]
    exact ⟨rfl, rfl, rfl⟩
  · intro hs
    rw [hs] at e2
    by_cases hok : w.startOk d.name = true
    · have hwr := wait_for_readyM_running d (setRunning w d.name)
        (by simpa using hrt) (by simp)
      have hmain : start_docker_service dbg d w =
          ⟨.ok (), setRunning w d.name,
           [Inv.psAll d.name, Inv.start d.name, Inv.ps d.name],
           (if dbg then [.debug ("docker_container_exists " ++ d.name)] else []) ++
           ((if dbg then [.debug ("Restarting stopped container: " ++ d.name)] else []) ++
            [])⟩ := by
        show M.bind get_container_runtime _ w = _
        rw [M.bind_apply, hrtev]
        dsimp only [M.bind_eq]
        rw [M.bind_apply, e2]
        dsimp only [M.bind_eq]
        rw [M.bind_apply, M.debugLog_apply]
        dsimp only [M.bind_eq]
        rw [M.bind_apply,
          show docker_start_cmd d.name w =
            ⟨.ok (true, w.startErr d.name), setRunning w d.name, [Inv.start d.name], []⟩ from by
              simp [docker_start_cmd, hok]]
        simp [hwr]
      rw [hmain]
      refine ⟨by rfl, ?_, ?_⟩
      · intro hc
        rw [hok] at hc
        cases hc
      · intro _
        exact ⟨rfl, by simp⟩
    · have hokf : w.startOk d.name = false := by
        cases hq : w.startOk d.name
        · rfl
        · exact absurd hq hok
      have hmain : start_docker_service dbg d w =
          ⟨.error ("Failed to restart " ++ d.name ++ ": " ++ w.startErr d.name), w,
           [Inv.psAll d.name, Inv.start d.name],
           (if dbg then [.debug ("docker_container_exists " ++ d.name)] else []) ++
           ((if dbg then [.debug ("Restarting stopped container: " ++ d.name)] else []) ++
            [])⟩ := by
        show M.bind get_container_runtime _ w = _
        rw [M.bind_apply, hrtev]
        dsimp only [M.bind_eq]
        rw [M.bind_apply, e2]
        dsimp only [M.bind_eq]
        rw [M.bind_apply, M.debugLog_apply]
        dsimp only [M.bind_eq]
        rw [M.bind_apply,
          show docker_start_cmd d.name w =
            ⟨.ok (false, w.startErr d.name), w, [Inv.start d.name], []⟩ from by
              simp [docker_start_cmd, hokf]]
        simp [M.throw]
      rw [hmain]
      exact ⟨by rfl, fun _ => rfl, by intro hc; rw [hokf] at hc; cases hc⟩
  · intro img hs himg
    rw [hs] at e2
    by_cases hok : w.runOk d.name = true
    · have hwr := wait_for_readyM_running d (setRunning w d.name)
        (by simpa using hrt) (by simp)
      have hmain : start_docker_service dbg d w =
          ⟨.ok (), setRunning w d.name,
           [Inv.psAll d.name, Inv.run d.name (docker_run_args d img), Inv.ps d.name],
           (if dbg then [.debug ("docker_container_exists " ++ d.name)] else []) ++
           ((if dbg then [.debug ("Creating new container: " ++ d.name)] else []) ++
            [])⟩ := by
        show M.bind get_container_runtime _ w = _
        rw [M.bind_apply, hrtev]
        dsimp only [M.bind_eq]
        rw [M.bind_apply, e2]
        dsimp only [M.bind_eq]
        rw [M.bind_apply, M.debugLog_apply]
        dsimp only [M.bind_eq]
        rw [himg]
        dsimp only [M.bind_eq]
        rw [M.bind_apply,
          show docker_runCmd d.name (docker_run_args d img) w =
            ⟨.ok (true, w.runErr d.name), setRunning w d.name,
             [Inv.run d.name (docker_run_args d img)], []⟩ from by
              simp [docker_runCmd, hok]]
        simp [hwr]
      rw [hmain]
      refine ⟨by simp [docker_run_args, List.filter_cons, isAction], ?_, ?_⟩
      · intro hc
        rw [hok] at hc
        cases hc
      · intro _
        exact ⟨rfl, by simp⟩
    · have hokf : w.runOk d.name = false := by
        cases hq : w.runOk d.name
        · rfl
        · exact absurd hq hok
      have hmain : start_docker_service dbg d w =
          ⟨.error ("Failed to create " ++ d.name ++ ": " ++ w.runErr d.name), w,
           [Inv.psAll d.name, Inv.run d.name (docker_run_args d img)],
           (if dbg then [.debug ("docker_container_exists " ++ d.name)] else []) ++
           ((if dbg then [.debug ("Creating new container: " ++ d.name)] else []) ++
            [])⟩ := by
        show M.bind get_container_runtime _ w = _
        rw [M.bind_apply, hrtev]
        dsimp only [M.bind_eq]
        rw [M.bind_apply, e2]
        dsimp only [M.bind_eq]
        rw [M.bind_apply, M.debugLog_apply]
        dsimp only [M.bind_eq]
        rw [himg]
        dsimp only [M.bind_eq]
        rw [M.bind_apply,
          show docker_runCmd d.name (docker_run_args d img) w =
            ⟨.ok (false, w.runErr d.name), w,
             [Inv.run d.name (docker_run_args d img)], []⟩ from by
              simp [docker_runCmd, hokf]]
        simp [M.throw]
      rw [hmain]
      exact ⟨by simp [docker_run_args, List.filter_cons, isAction], fun _ => rfl,
        by intro hc; rw [hokf] at hc; cases hc⟩

/-! ## Claims C2 and C3: candidate short-circuiting and fallback -/

theorem M.attempt_apply (x : M α) (w : World) :
    M.attempt x w = ⟨.ok (x w).val, (x w).w, (x w).invs, (x w).logs⟩ := rfl

theorem try_candidates_cons_err (dbg : Bool) (dx : Index) (fuel : Nat) (cap : String)
    (req : CapabilityRequirement) (k : String) (d : BootDatum)
    (l : List (String × BootDatum)) (w : World) (e : String)
    (hv : (ensure_api_dependencies dbg dx fuel d w).val = .error e) :
    (try_candidates dbg dx fuel cap req ((k, d) :: l) w).val =
      (try_candidates dbg dx fuel cap req l
        ((ensure_api_dependencies dbg dx fuel d w).w)).val ∧
    (try_candidates dbg dx fuel cap req ((k, d) :: l) w).w =
      (try_candidates dbg dx fuel cap req l
        ((ensure_api_dependencies dbg dx fuel d w).w)).w := by
  have hrun : try_candidates dbg dx fuel cap req ((k, d) :: l) =
      M.bind (M.attempt (ensure_api_dependencies dbg dx fuel d))
        (fun r => match r with
          | .ok l0 => M.pure l0
          | .error e0 => M.bind (M.log (.warnFailedStart k e0))
              (fun _ => try_candidates dbg dx fuel cap req l)) := rfl
  constructor <;>
  · rw [hrun, M.bind_apply, M.attempt_apply]
    dsimp only
    rw [hv]
    dsimp only
    rw [M.bind_apply, M.log_apply]

theorem try_candidates_cons_ok (dbg : Bool) (dx : Index) (fuel : Nat) (cap : String)
    (req : CapabilityRequirement) (k : String) (d : BootDatum)
    (l : List (String × BootDatum)) (w : World) (l0 : List String)
    (hv : (ensure_api_dependencies dbg dx fuel d w).val = .ok l0) :
    (try_candidates dbg dx fuel cap req ((k, d) :: l) w).val = .ok l0 ∧
    (try_candidates dbg dx fuel cap req ((k, d) :: l) w).w =
      (ensure_api_dependencies dbg dx fuel d w).w := by
  have hrun : try_candidates dbg dx fuel cap req ((k, d) :: l) =
      M.bind (M.attempt (ensure_api_dependencies dbg dx fuel d))
        (fun r => match r with
          | .ok l0 => M.pure l0
          | .error e0 => M.bind (M.log (.warnFailedStart k e0))
              (fun _ => try_candidates dbg dx fuel cap req l)) := rfl
  constructor <;>
  · rw [hrun, M.bind_apply, M.attempt_apply]
    dsimp only
    rw [hv]
    rfl

theorem try_candidates_fails_prefix (dbg : Bool) (dx : Index) (fuel : Nat)
    (cap : String) (req : CapabilityRequirement) :
    ∀ (pre rest : List (String × BootDatum)) (w : World),
      fails_all dbg dx fuel w pre →
      (try_candidates dbg dx fuel cap req (pre ++ rest) w).val =
        (try_candidates dbg dx fuel cap req rest (after_fails dbg dx fuel w pre)).val ∧
      (try_candidates dbg dx fuel cap req (pre ++ rest) w).w =
        (try_candidates dbg dx fuel cap req rest (after_fails dbg dx fuel w pre)).w := by
  intro pre
  induction pre with
  | nil => intro rest w _; exact ⟨rfl, rfl⟩
  | cons c pre ih =>
      intro rest w hfail
      obtain ⟨k, d⟩ := c
      obtain ⟨h1, h2⟩ := hfail
      rcases hv : (ensure_api_dependencies dbg dx fuel d w).val with e | l0
      · have hstep := try_candidates_cons_err dbg dx fuel cap req k d (pre ++ rest) w e hv
        have hrec := ih rest ((ensure_api_dependencies dbg dx fuel d w).w) h2
        exact ⟨hstep.1.trans hrec.1, hstep.2.trans hrec.2⟩
      · rw [hv] at h1
        exact absurd h1 (by simp [exceptIsErr])

theorem resolve_capability_val_w (dbg : Bool) (dx : Index) (fuel : Nat) (cap : String)
    (req : CapabilityRequirement) (w : World) :
    (resolve_capability dbg dx (fuel+1) cap req w).val =
      (try_candidates dbg dx fuel cap req (sorted_candidates dx cap req) w).val ∧
    (resolve_capability dbg dx (fuel+1) cap req w).w =
      (try_candidates dbg dx fuel cap req (sorted_candidates dx cap req) w).w := by
  constructor <;>
  · rw [show resolve_capability dbg dx (fuel+1) cap req =
        M.bind (M.debugLog dbg ("Resolving capability: " ++ cap))
          (fun _ => try_candidates dbg dx fuel cap req (sorted_candidates dx cap req))
        from rfl]
    rw [M.bind_apply, M.debugLog_apply]

/-- Claim C2: the first candidate whose recursive `ensure_api_dependencies`
succeeds short-circuits the whole resolution: its started-services list is
returned immediately, independently of the candidates after it and of the
fallback; failures of the candidates before it are not propagated — the
call still succeeds. -/
theorem claim_C2_short_circuit (dbg : Bool) (dx : Index) (fuel : Nat) (cap : String)
    (req : CapabilityRequirement) (pre post : List (String × BootDatum))
    (k : String) (d : BootDatum) (w : World) (l : List String)
    (hsort : sorted_candidates dx cap req = pre ++ (k, d) :: post)
    (hfail : fails_all dbg dx fuel w pre)
    (hok : (ensure_api_dependencies dbg dx fuel d
      (after_fails dbg dx fuel w pre)).val = .ok l) :
    (resolve_capability dbg dx (fuel+1) cap req w).val = .ok l ∧
    (resolve_capability dbg dx (fuel+1) cap req w).w =
      (ensure_api_dependencies dbg dx fuel d (after_fails dbg dx fuel w pre)).w := by
  have hres := resolve_capability_val_w dbg dx fuel cap req w
  rw [hsort] at hres
  have hpre := try_candidates_fails_prefix dbg dx fuel cap req pre ((k, d) :: post) w hfail
  have hcons := try_candidates_cons_ok dbg dx fuel cap req k d post
    (after_fails dbg dx fuel w pre) l hok
  exact ⟨hres.1.trans (hpre.1.trans hcons.1), hres.2.trans (hpre.2.trans hcons.2)⟩

/-- Witness for C2: with providers `bad.api` (whose infrastructure
dependency cannot be created) enumerated before `good.api` (no
dependencies), resolution succeeds with `good.api`'s empty started list:
the first candidate's failure is not propagated. -/
theorem claim_C2_short_circuit_witness :
    (resolve_capability false dxBadGood 6 "emb" reqEmbPlain wBoom).val = .ok [] := by
  exact (claim_C2_short_circuit false dxBadGood 5 "emb" reqEmbPlain
    [("bad.api", badApiD)] [] "good.api" goodApiD wBoom []
    rfl ⟨rfl, trivial⟩ rfl).1

/-- Counterexample to C3 as stated: every candidate fails (here the
candidate set is empty), the fallback `local` names an existing Api-typed
datum, and that datum's dependency resolution also fails — but the
resolution error is the fallback's own propagated error, not a
"capability unresolved" error naming the capability. -/
theorem claim_C3_fallback_counterexample :
    (resolve_capability false dxLocal 5 "embeddings" reqEmb wBoom).val =
      .error "Failed to start qdrant.docker: Failed to create qdrant: boom" ∧
    "Failed to start qdrant.docker: Failed to create qdrant: boom" ≠
      "Failed to resolve capability: embeddings" := by
  exact ⟨rfl, by decide⟩

/-- Claim C3 (amended): when every candidate fails (or the candidate set is
empty), the fallback is used exactly when it names an existing Api-typed
datum, and the resolution returns exactly the result of ensuring that
datum's dependencies — including propagating that datum's own failure
verbatim; when the fallback is absent or names no existing Api-typed
datum, the resolution fails with the "capability unresolved" error naming
the capability. -/
theorem claim_C3_fallback (dbg : Bool) (dx : Index) (fuel : Nat) (cap : String)
    (req : CapabilityRequirement) (w : World)
    (hfail : fails_all dbg dx fuel w (sorted_candidates dx cap req)) :
    (req.fallback = none →
      (resolve_capability dbg dx (fuel+1) cap req w).val =
        .error ("Failed to resolve capability: " ++ cap)) ∧
    (∀ fb, req.fallback = some fb →
      List.find? (fun p => decide (p.2.name = fb ∧
        p.2.datum_type = some DatumType.Api)) dx = none →
      (resolve_capability dbg dx (fuel+1) cap req w).val =
        .error ("Failed to resolve capability: " ++ cap)) ∧
    (∀ fb kd, req.fallback = some fb →
      List.find? (fun p => decide (p.2.name = fb ∧
        p.2.datum_type = some DatumType.Api)) dx = some kd →
      (resolve_capability dbg dx (fuel+1) cap req w).val =
        (ensure_api_dependencies dbg dx fuel kd.2
          (after_fails dbg dx fuel w (sorted_candidates dx cap req))).val ∧
      (resolve_capability dbg dx (fuel+1) cap req w).w =
        (ensure_api_dependencies dbg dx fuel kd.2
          (after_fails dbg dx fuel w (sorted_candidates dx cap req))).w) := by
  have hres := resolve_capability_val_w dbg dx fuel cap req w
  have hpre := try_candidates_fails_prefix dbg dx fuel cap req
    (sorted_candidates dx cap req) [] w hfail
  rw [List.append_nil] at hpre
  have hval : (resolve_capability dbg dx (fuel+1) cap req w).val =
      (resolve_fallback dbg dx fuel cap req
        (after_fails dbg dx fuel w (sorted_candidates dx cap req))).val :=
    hres.1.trans hpre.1
  have hw : (resolve_capability dbg dx (fuel+1) cap req w).w =
      (resolve_fallback dbg dx fuel cap req
        (after_fails dbg dx fuel w (sorted_candidates dx cap req))).w :=
    hres.2.trans hpre.2
  refine ⟨?_, ?_, ?_⟩
  · intro hfb
    rw [hval]
    simp [resolve_fallback, fallback_aux, hfb, M.throw]
  · intro fb hfb hfind
    rw [hval]
    simp only [Bool.decide_and] at hfind
    simp [resolve_fallback, fallback_aux, hfb, hfind, M.bind, M.debugLog, M.throw]
  · intro fb kd hfb hfind
    simp only [Bool.decide_and] at hfind
    constructor
    · rw [hval]
      simp [resolve_fallback, fallback_aux, hfb, hfind, M.bind, M.debugLog,
        ensure_api_dependencies]
    · rw [hw]
      simp [resolve_fallback, fallback_aux, hfb, hfind, M.bind, M.debugLog,
        ensure_api_dependencies]

/-- Witness for the amended C3: with no provider of `embeddings` and
fallback `local` naming the existing Api datum `local.api`, the resolution
returns exactly the fallback's own (failing) result. -/
theorem claim_C3_fallback_witness :
    (resolve_capability false dxLocal 6 "embeddings" reqEmb wBoom).val =
      (ensure_api_dependencies false dxLocal 5 localD wBoom).val ∧
    (ensure_api_dependencies false dxLocal 5 localD wBoom).val =
      .error "Failed to start qdrant.docker: Failed to create qdrant: boom" := by
  refine ⟨?_, rfl⟩
  exact ((claim_C3_fallback false dxLocal 5 "embeddings" reqEmb wBoom trivial).2.2
    "local" ("local.api", localD) rfl rfl).1

/-- Witness for C4: the qdrant datum against a world where its container is
already running (no action), stopped (one restart, then running), and
absent with a failing create (one create, its stderr surfaced). -/
theorem claim_C4_docker_state_machine_witness :
    ((start_docker_service false qdrantD wAllUp).val = .ok () ∧
     (start_docker_service false qdrantD wAllUp).invs.filter isAction = []) ∧
    ((start_docker_service false qdrantD wStopped).invs.filter isAction =
       [Inv.start "qdrant"] ∧
     (start_docker_service false qdrantD wStopped).val = .ok () ∧
     (start_docker_service false qdrantD wStopped).w.state "qdrant" =
       ContState.Running) ∧
    (start_docker_service false qdrantD wBoom).val =
      .error "Failed to create qdrant: boom" := by
  have hUp := claim_C4_docker_state_machine false qdrantD wAllUp (Or.inl rfl) rfl
  have hSt := claim_C4_docker_state_machine false qdrantD wStopped (Or.inl rfl) rfl
  have hAb := claim_C4_docker_state_machine false qdrantD wBoom (Or.inl rfl) rfl
  refine ⟨⟨(hUp.2.1 rfl).1, (hUp.2.1 rfl).2.2⟩, ⟨(hSt.2.2.1 rfl).1,
    ((hSt.2.2.1 rfl).2.2 rfl).1, ((hSt.2.2.1 rfl).2.2 rfl).2⟩, ?_⟩
  exact (hAb.2.2.2 "qdrant/qdrant" rfl rfl).2.1 rfl

/-! ## Started-services invariant: every recorded key is a Docker-typed
index entry (used by claims C6 and C10) -/

theorem M.context_apply (c : String) (x : M α) (w : World) :
    M.context c x w = ⟨(x w).val.mapError (fun e => c ++ ": " ++ e),
      (x w).w, (x w).invs, (x w).logs⟩ := by
  unfold M.context
  cases h : (x w).val <;> simp [h, Except.mapError]

theorem M.context_ok_inv {c : String} {x : M α} {w : World} {a : α}
    (h : (M.context c x w).val = .ok a) :
    (x w).val = .ok a ∧ (M.context c x w).w = (x w).w := by
  rw [M.context_apply] at h
  rcases hv : (x w).val with e | b
  · rw [hv] at h
    simp [Except.mapError] at h
  · rw [hv] at h
    simp [Except.mapError] at h
    subst h
    refine ⟨rfl, ?_⟩
    rw [M.context_apply]

theorem needs_start_ok_true (d : BootDatum) (w : World)
    (h : (needs_start d w).val = .ok true) :
    d.datum_type = some DatumType.Docker := by
  rcases hdt : d.datum_type with _ | t
  · unfold needs_start at h
    rw [hdt] at h
    simp [M.pure] at h
  · unfold needs_start at h
    rw [hdt] at h
    cases t
    case Docker => rfl
    all_goals simp [M.pure] at h

theorem process_deps_started (dbg inApi : Bool) (dx : Index) :
    ∀ (deps : List String) (w : World) (l : List String),
      (process_deps dbg inApi dx deps w).val = .ok l →
      ∀ x ∈ l, dockerKey dx x := by
  intro deps
  induction deps with
  | nil =>
      intro w l h
      simp [process_deps, M.pure] at h
      subst h
      intro x hx
      cases hx
  | cons k rest ih =>
      intro w l h
      unfold process_deps at h
      rcases hf : findDatum dx k with _ | dd <;> rw [hf] at h
      · obtain ⟨u, _, h2⟩ := M.bind_ok_inv h
        exact ih _ l h2
      · obtain ⟨ns, hns, hbr⟩ := M.bind_ok_inv h
        cases ns with
        | false =>
            rw [if_neg (by simp)] at hbr
            obtain ⟨u, _, h2⟩ := M.bind_ok_inv hbr
            exact ih _ l h2
        | true =>
            rw [if_pos rfl] at hbr
            obtain ⟨u1, _, h2⟩ := M.bind_ok_inv hbr
            obtain ⟨u2, _, h3⟩ := M.bind_ok_inv h2
            obtain ⟨ls, h4, h5⟩ := M.bind_ok_inv h3
            have hl : l = k :: ls := by
              simp [M.pure] at h5
              exact h5.symm
            subst hl
            intro x hx
            rcases List.mem_cons.mp hx with rfl | hx
            · exact ⟨dd, hf, needs_start_ok_true dd w hns⟩
            · exact ih _ ls h4 x hx

theorem require_loop_aux_started
    (resolveF : String → CapabilityRequirement → M (List String))
    (dbg inApi : Bool) (dx : Index)
    (hF : ∀ cap req w l, (resolveF cap req w).val = .ok l → ∀ x ∈ l, dockerKey dx x) :
    ∀ (reqs : List (String × CapabilityRequirement)) (w : World) (l : List String),
      (require_loop_aux resolveF dbg inApi reqs w).val = .ok l →
      ∀ x ∈ l, dockerKey dx x := by
  intro reqs
  induction reqs with
  | nil =>
      intro w l h
      simp [require_loop_aux, M.pure] at h
      subst h
      intro x hx
      cases hx
  | cons r rest ih =>
      intro w l h
      obtain ⟨rname, req⟩ := r
      unfold require_loop_aux at h
      rcases hc : req.capability with _ | cap <;> rw [hc] at h
      · exact ih _ l h
      · obtain ⟨u, _, h2⟩ := M.bind_ok_inv h
        obtain ⟨l1, hl1, h3⟩ := M.bind_ok_inv h2
        obtain ⟨l2, hl2, h4⟩ := M.bind_ok_inv h3
        have hl : l = l1 ++ l2 := by
          simp [M.pure] at h4
          exact h4.symm
        subst hl
        intro x hx
        rcases List.mem_append.mp hx with hx | hx
        · exact hF cap req _ l1 hl1 x hx
        · exact ih _ l2 hl2 x hx

theorem ensure_api_aux_started
    (resolveF : String → CapabilityRequirement → M (List String))
    (dbg : Bool) (dx : Index)
    (hF : ∀ cap req w l, (resolveF cap req w).val = .ok l → ∀ x ∈ l, dockerKey dx x) :
    ∀ (d : BootDatum) (w : World) (l : List String),
      (ensure_api_aux resolveF dbg dx d w).val = .ok l →
      ∀ x ∈ l, dockerKey dx x := by
  intro d w l h
  unfold ensure_api_aux at h
  obtain ⟨u, _, h2⟩ := M.bind_ok_inv h
  obtain ⟨l1, hl1, h3⟩ := M.bind_ok_inv h2
  obtain ⟨l2, hl2, h4⟩ := M.bind_ok_inv h3
  have hl : l = l1 ++ l2 := by
    simp [M.pure] at h4
    exact h4.symm
  subst hl
  intro x hx
  rcases List.mem_append.mp hx with hx | hx
  · exact process_deps_started dbg true dx _ _ l1 hl1 x hx
  · exact require_loop_aux_started resolveF dbg true dx hF _ _ l2 hl2 x hx

theorem fallback_aux_started
    (apiF : BootDatum → M (List String)) (dbg : Bool) (dx : Index)
    (cap : String) (req : CapabilityRequirement)
    (hA : ∀ d w l, (apiF d w).val = .ok l → ∀ x ∈ l, dockerKey dx x) :
    ∀ (w : World) (l : List String),
      (fallback_aux apiF dbg dx cap req w).val = .ok l →
      ∀ x ∈ l, dockerKey dx x := by
  intro w l h
  unfold fallback_aux at h
  rcases hfb : req.fallback with _ | fb <;> rw [hfb] at h <;> dsimp only at h
  · simp [M.throw] at h
  · rcases hfind : List.find? (fun p => decide (p.2.name = fb ∧
        p.2.datum_type = some DatumType.Api)) dx with _ | kd <;>
      rw [hfind] at h <;> dsimp only at h
    · obtain ⟨u, _, h2⟩ := M.bind_ok_inv h
      simp [M.throw] at h2
    · obtain ⟨u, _, h2⟩ := M.bind_ok_inv h
      exact hA kd.2 _ l h2

theorem try_cands_aux_started
    (apiF : BootDatum → M (List String)) (afterAll : M (List String)) (dx : Index)
    (hA : ∀ d w l, (apiF d w).val = .ok l → ∀ x ∈ l, dockerKey dx x)
    (hAfter : ∀ w l, (afterAll w).val = .ok l → ∀ x ∈ l, dockerKey dx x) :
    ∀ (cs : List (String × BootDatum)) (w : World) (l : List String),
      (try_cands_aux apiF afterAll cs w).val = .ok l →
      ∀ x ∈ l, dockerKey dx x := by
  intro cs
  induction cs with
  | nil => intro w l h; exact hAfter w l h
  | cons c rest ih =>
      intro w l h
      obtain ⟨k, d⟩ := c
      unfold try_cands_aux at h
      obtain ⟨r, hr, h2⟩ := M.bind_ok_inv h
      rw [M.attempt_apply] at hr
      have hrv : r = (apiF d w).val := by
        simpa using hr.symm
      rcases hv : (apiF d w).val with e | l0 <;> rw [hv] at hrv <;> subst hrv
      · obtain ⟨u, _, h3⟩ := M.bind_ok_inv h2
        exact ih _ l h3
      · have hl : l = l0 := by
          simp [M.pure] at h2
          exact h2.symm
        rw [hl]
        exact hA d w l0 hv

theorem resolve_capability_started (dbg : Bool) (dx : Index) :
    ∀ (fuel : Nat) (cap : String) (req : CapabilityRequirement) (w : World)
      (l : List String),
      (resolve_capability dbg dx fuel cap req w).val = .ok l →
      ∀ x ∈ l, dockerKey dx x := by
  intro fuel
  induction fuel with
  | zero =>
      intro cap req w l h
      simp [resolve_capability, M.throw] at h
  | succ fuel ih =>
      intro cap req w l h
      have hres : (resolve_capability dbg dx (fuel+1) cap req w).val =
          (try_candidates dbg dx fuel cap req (sorted_candidates dx cap req) w).val :=
        (resolve_capability_val_w dbg dx fuel cap req w).1
      rw [hres] at h
      have hA : ∀ d w0 l0, (ensure_api_dependencies dbg dx fuel d w0).val = .ok l0 →
          ∀ x ∈ l0, dockerKey dx x := by
        intro d w0 l0 h0
        exact ensure_api_aux_started (resolve_capability dbg dx fuel) dbg dx
          (fun cap0 req0 w1 l1 h1 => ih cap0 req0 w1 l1 h1) d w0 l0 h0
      exact try_cands_aux_started _ _ dx hA
        (fun w0 l0 h0 => fallback_aux_started _ dbg dx cap req hA w0 l0 h0)
        (sorted_candidates dx cap req) w l h

theorem ensure_dependencies_started (dbg : Bool) (dx : Index) (fuel : Nat)
    (key : String) (w : World) (l : List String)
    (h : (ensure_dependencies dbg dx fuel key w).val = .ok l) :
    ∀ x ∈ l, dockerKey dx x := by
  unfold ensure_dependencies at h
  rcases hf : findDatum dx key with _ | d <;> rw [hf] at h
  · simp [M.throw] at h
  · obtain ⟨l1, hl1, h2⟩ := M.bind_ok_inv h
    obtain ⟨l2, hl2, h3⟩ := M.bind_ok_inv h2
    have hl : l = l1 ++ l2 := by
      simp [M.pure] at h3
      exact h3.symm
    subst hl
    intro x hx
    rcases List.mem_append.mp hx with hx | hx
    · exact process_deps_started dbg false dx _ _ l1 hl1 x hx
    · exact require_loop_aux_started _ dbg false dx
        (fun cap req w0 l0 h0 => resolve_capability_started dbg dx fuel cap req w0 l0 h0)
        _ _ l2 hl2 x hx

/-! ## Claim C6: hard error on missing requested key, silent skip of
missing dependency entries -/

/-- Claim C6: `ensure_dependencies` fails hard with "Datum not found" when
the requested key is absent from the index, but entries of the found
datum's `depends_on` that are absent are skipped silently: the explicit
dependency loop behaves exactly as if those entries were removed (no
error, processing continues), and an absent entry never appears in the
returned started list. -/
theorem claim_C6_missing_key_behavior (dbg : Bool) (dx : Index) (fuel : Nat) :
    (∀ (key : String) (w : World), findDatum dx key = none →
      ensure_dependencies dbg dx fuel key w =
        ⟨.error ("Datum not found: " ++ key), w, [], []⟩) ∧
    (∀ deps : List String, process_deps dbg false dx deps =
      process_deps dbg false dx (deps.filter (fun k => (findDatum dx k).isSome))) ∧
    (∀ (e key : String) (w : World) (l : List String), findDatum dx e = none →
      (ensure_dependencies dbg dx fuel key w).val = .ok l → e ∉ l) := by
  refine ⟨?_, ?_, ?_⟩
  · intro key w hf
    unfold ensure_dependencies
    rw [hf]
    rfl
  · intro deps
    induction deps with
    | nil => rfl
    | cons k rest ih =>
        rcases hf : findDatum dx k with _ | dd
        · have h2 : (k :: rest).filter (fun x => (findDatum dx x).isSome) =
              rest.filter (fun x => (findDatum dx x).isSome) := by
            simp [List.filter_cons, hf]
          rw [h2, ← ih]
          show process_deps dbg false dx (k :: rest) = process_deps dbg false dx rest
          conv_lhs => rw [process_deps]
          rw [hf]
          rfl
        · have h2 : (k :: rest).filter (fun x => (findDatum dx x).isSome) =
              k :: rest.filter (fun x => (findDatum dx x).isSome) := by
            simp [List.filter_cons, hf]
          rw [h2]
          show process_deps dbg false dx (k :: rest) =
            process_deps dbg false dx
              (k :: rest.filter (fun x => (findDatum dx x).isSome))
          conv_lhs => rw [process_deps]
          conv_rhs => rw [process_deps]
          rw [hf, ih]
  · intro e key w l he hok hmem
    obtain ⟨d2, hfind, _⟩ := ensure_dependencies_started dbg dx fuel key w l hok e hmem
    rw [he] at hfind
    cases hfind

/-- Witness for C6: index `dxGhost` where `app.cli` depends on the missing
`ghost.docker` and the present `qdrant.docker`: a missing requested key
errors, the dependency loop equals the loop on the filtered list, the run
succeeds starting only `qdrant.docker`, and the missing entry is not in
the result. -/
theorem claim_C6_missing_key_behavior_witness :
    ensure_dependencies false dxGhost 5 "nope" wFresh =
      ⟨.error "Datum not found: nope", wFresh, [], []⟩ ∧
    process_deps false false dxGhost ["ghost.docker", "qdrant.docker"] =
      process_deps false false dxGhost ["qdrant.docker"] ∧
    (ensure_dependencies false dxGhost 5 "app.cli" wFresh).val =
      .ok ["qdrant.docker"] ∧
    "ghost.docker" ∉ ["qdrant.docker"] := by
  refine ⟨?_, ?_, rfl, ?_⟩
  · exact (claim_C6_missing_key_behavior false dxGhost 5).1 "nope" wFresh rfl
  · exact (claim_C6_missing_key_behavior false dxGhost 5).2.1
      ["ghost.docker", "qdrant.docker"]
  · exact (claim_C6_missing_key_behavior false dxGhost 5).2.2 "ghost.docker"
      "app.cli" wFresh ["qdrant.docker"] rfl rfl

/-! ## Claim C10: non-Docker datums are never orchestrated -/

/-- Claim C10: for every datum whose type is not Docker (Mcp included),
`needs_start` returns false and `start_service` is a no-op success; hence
only keys of Docker-typed index entries can appear in the started-services
list of `ensure_dependencies`. -/
theorem claim_C10_non_docker_noop :
    (∀ (d : BootDatum) (w : World), d.datum_type ≠ some DatumType.Docker →
      needs_start d w = ⟨.ok false, w, [], []⟩) ∧
    (∀ (dbg : Bool) (d : BootDatum) (w : World),
      d.datum_type ≠ some DatumType.Docker →
      start_service dbg d w = ⟨.ok (), w, [], []⟩) ∧
    (∀ (dbg : Bool) (dx : Index) (fuel : Nat) (key : String) (w : World)
      (l : List String),
      (ensure_dependencies dbg dx fuel key w).val = .ok l →
      ∀ x ∈ l, ∃ d2, findDatum dx x = some d2 ∧
        d2.datum_type = some DatumType.Docker) := by
  refine ⟨?_, ?_, ?_⟩
  · intro d w hne
    unfold needs_start
    rcases hdt : d.datum_type with _ | t
    · rfl
    · cases t
      case Docker => exact absurd hdt hne
      all_goals rfl
  · intro dbg d w hne
    unfold start_service
    rcases hdt : d.datum_type with _ | t
    · rfl
    · cases t
      case Docker => exact absurd hdt hne
      all_goals rfl
  · intro dbg dx fuel key w l hok x hx
    exact ensure_dependencies_started dbg dx fuel key w l hok x hx

/-- Witness for C10: the Mcp datum is never started. -/
theorem claim_C10_non_docker_noop_witness :
    needs_start mcpD wFresh = ⟨.ok false, wFresh, [], []⟩ ∧
    start_service true mcpD wFresh = ⟨.ok (), wFresh, [], []⟩ := by
  exact ⟨claim_C10_non_docker_noop.1 mcpD wFresh (by decide),
    claim_C10_non_docker_noop.2.1 true mcpD wFresh (by decide)⟩

/-! ## Claim C7: no runtime actions on already-running dependencies -/

theorem actionOn_imp_isAction {n : String} {i : Inv} (h : actionOn n i = true) :
    isAction i = true := by
  cases i <;> simp [actionOn, isAction] at h ⊢

theorem filter_actionOn_nil {n : String} {invs : List Inv}
    (h : invs.filter isAction = []) : invs.filter (actionOn n) = [] := by
  rw [List.filter_eq_nil_iff] at h ⊢
  intro i hi ha
  exact h i hi (actionOn_imp_isAction ha)

theorem quiet_bind {x : M α} {f : α → M β} {w : World}
    (hx : Quiet w (x w)) (hf : ∀ a, (x w).val = .ok a → Quiet w (f a w)) :
    Quiet w (M.bind x f w) := by
  rcases hv : (x w).val with e | a
  · rw [M.bind_apply_err hv]
    exact hx
  · rw [M.bind_apply_ok hv, hx.1]
    obtain ⟨hw2, hi2⟩ := hf a hv
    refine ⟨hw2, ?_⟩
    rw [List.filter_append, hx.2, hi2]
    rfl

theorem RunPres.of_quiet {n : String} {w : World} {o : Out α}
    (h : Quiet w o) : RunPres n w o := by
  intro hr
  refine ⟨?_, filter_actionOn_nil h.2⟩
  rw [h.1]
  exact hr

theorem runPres_bind {n : String} {x : M α} {f : α → M β} {w : World}
    (hx : RunPres n w (x w))
    (hf : ∀ a, (x w).val = .ok a → RunPres n (x w).w (f a (x w).w)) :
    RunPres n w (M.bind x f w) := by
  intro hr
  obtain ⟨hw1, hi1⟩ := hx hr
  rcases hv : (x w).val with e | a
  · rw [M.bind_apply_err hv]
    exact ⟨hw1, hi1⟩
  · rw [M.bind_apply_ok hv]
    obtain ⟨hw2, hi2⟩ := hf a hv hw1
    refine ⟨hw2, ?_⟩
    rw [List.filter_append, hi1, hi2]
    rfl

theorem get_container_runtime_quiet (w : World) : Quiet w (get_container_runtime w) := by
  unfold Quiet get_container_runtime
  split_ifs <;> exact ⟨rfl, rfl⟩

theorem observe_ps_quiet (n : String) (w : World) : Quiet w (observe_ps n w) := ⟨rfl, rfl⟩

theorem observe_ps_all_quiet (n : String) (w : World) :
    Quiet w (observe_ps_all n w) := ⟨rfl, rfl⟩

theorem is_docker_runningM_quiet (n : String) (w : World) :
    Quiet w (is_docker_runningM n w) :=
  quiet_bind (get_container_runtime_quiet w) (fun _ _ => observe_ps_quiet n w)

theorem docker_container_existsM_quiet (dbg : Bool) (n : String) (w : World) :
    Quiet w (docker_container_existsM dbg n w) :=
  quiet_bind (get_container_runtime_quiet w)
    (fun _ _ => quiet_bind (observe_ps_all_quiet n w)
      (fun r _ => quiet_bind ⟨rfl, rfl⟩ (fun _ _ => ⟨rfl, rfl⟩)))

theorem needs_start_quiet (d : BootDatum) (w : World) : Quiet w (needs_start d w) := by
  unfold needs_start
  rcases hdt : d.datum_type with _ | t
  · exact ⟨rfl, rfl⟩
  · cases t
    case Docker =>
      exact quiet_bind (is_docker_runningM_quiet d.name w) (fun _ _ => ⟨rfl, rfl⟩)
    all_goals exact ⟨rfl, rfl⟩

theorem wait_loopM_quiet (n : String) (w : World) :
    ∀ k, Quiet w (wait_loopM n k w) := by
  intro k
  induction k with
  | zero => exact ⟨rfl, rfl⟩
  | succ k ih =>
      refine quiet_bind (is_docker_runningM_quiet n w) (fun a _ => ?_)
      cases a
      · exact ih
      · exact ⟨rfl, rfl⟩

theorem docker_container_existsM_ok {dbg : Bool} {m : String} {w : World}
    {a : Option Bool} (h : (docker_container_existsM dbg m w).val = .ok a) :
    a = (match w.state m with
        | ContState.Running => some true
        | ContState.Stopped => some false
        | ContState.Absent => none) := by
  by_cases hd : w.docker = true
  · rw [docker_container_existsM_eval dbg m w (Or.inl hd)] at h
    exact (Except.ok.inj h).symm
  · by_cases hp : w.podman = true
    · rw [docker_container_existsM_eval dbg m w (Or.inr hp)] at h
      exact (Except.ok.inj h).symm
    · have hrt : get_container_runtime w =
          ⟨.error "Neither docker nor podman available", w, [], []⟩ := by
        simp [get_container_runtime, hd, hp]
      have hrun : docker_container_existsM dbg m w =
          ⟨.error "Neither docker nor podman available", w, [], []⟩ := by
        show M.bind get_container_runtime _ w = _
        rw [M.bind_apply, hrt]
      rw [hrun] at h
      exact absurd h (by simp)

theorem start_docker_service_post (dbg : Bool) (d : BootDatum) (w : World) :
    ((start_docker_service dbg d w).val = .ok () →
      (start_docker_service dbg d w).w.state d.name = ContState.Running) ∧
    (∀ n, n ≠ d.name →
      (start_docker_service dbg d w).w.state n = w.state n ∧
      (start_docker_service dbg d w).invs.filter (actionOn n) = []) ∧
    (w.state d.name = ContState.Running →
      (start_docker_service dbg d w).w = w ∧
      (start_docker_service dbg d w).invs.filter isAction = []) := by
  by_cases hrt : w.docker = true ∨ w.podman = true
  · obtain ⟨rt, hrtev⟩ := get_container_runtime_avail w hrt
    have e2 := docker_container_existsM_eval dbg d.name w hrt
    rcases hs : w.state d.name with _ | _ | _
    · rw [hs] at e2
      rcases himg : d.image with _ | img
      · have hmain : start_docker_service dbg d w =
            ⟨.error "Docker datum missing image field", w, [Inv.psAll d.name],
             (if dbg then [.debug ("docker_container_exists " ++ d.name)] else []) ++
             ((if dbg then [.debug ("Creating new container: " ++ d.name)] else []) ++
              [])⟩ := by
          show M.bind get_container_runtime _ w = _
          rw [M.bind_apply, hrtev]
          dsimp only [M.bind_eq]
          rw [M.bind_apply, e2]
          dsimp only [M.bind_eq]
          rw [M.bind_apply, M.debugLog_apply]
          dsimp only [M.bind_eq]
          rw [himg]
          simp [M.throw]
        rw [hmain]
        refine ⟨(by intro hc; cases hc), fun n _ => ⟨rfl, rfl⟩, ?_⟩
        intro hc
        cases hc
      · by_cases hok : w.runOk d.name = true
        · have hwr := wait_for_readyM_running d (setRunning w d.name)
            (by simpa using hrt) (by simp)
          have hmain : start_docker_service dbg d w =
              ⟨.ok (), setRunning w d.name,
               [Inv.psAll d.name, Inv.run d.name (docker_run_args d img), Inv.ps d.name],
               (if dbg then [.debug ("docker_container_exists " ++ d.name)] else []) ++
               ((if dbg then [.debug ("Creating new container: " ++ d.name)] else []) ++
                [])⟩ := by
            show M.bind get_container_runtime _ w = _
            rw [M.bind_apply, hrtev]
            dsimp only [M.bind_eq]
            rw [M.bind_apply, e2]
            dsimp only [M.bind_eq]
            rw [M.bind_apply, M.debugLog_apply]
            dsimp only [M.bind_eq]
            rw [himg]
            dsimp only [M.bind_eq]
            rw [M.bind_apply,
              show docker_runCmd d.name (docker_run_args d img) w =
                ⟨.ok (true, w.runErr d.name), setRunning w d.name,
                 [Inv.run d.name (docker_run_args d img)], []⟩ from by
                  simp [docker_runCmd, hok]]
            simp [hwr]
          rw [hmain]
          refine ⟨fun _ => by simp, fun n hn => ⟨setRunning_state_ne w hn, ?_⟩, ?_⟩
          · simp [List.filter_cons, actionOn, hn, Ne.symm hn]
          · intro hc
            cases hc
        · have hokf : w.runOk d.name = false := by
            cases hq : w.runOk d.name
            · rfl
            · exact absurd hq hok
          have hmain : start_docker_service dbg d w =
              ⟨.error ("Failed to create " ++ d.name ++ ": " ++ w.runErr d.name), w,
               [Inv.psAll d.name, Inv.run d.name (docker_run_args d img)],
               (if dbg then [.debug ("docker_container_exists " ++ d.name)] else []) ++
               ((if dbg then [.debug ("Creating new container: " ++ d.name)] else []) ++
                [])⟩ := by
            show M.bind get_container_runtime _ w = _
            rw [M.bind_apply, hrtev]
            dsimp only [M.bind_eq]
            rw [M.bind_apply, e2]
            dsimp only [M.bind_eq]
            rw [M.bind_apply, M.debugLog_apply]
            dsimp only [M.bind_eq]
            rw [himg]
            dsimp only [M.bind_eq]
            rw [M.bind_apply,
              show docker_runCmd d.name (docker_run_args d img) w =
                ⟨.ok (false, w.runErr d.name), w,
                 [Inv.run d.name (docker_run_args d img)], []⟩ from by
                  simp [docker_runCmd, hokf]]
            simp [M.throw]
          rw [hmain]
          refine ⟨(by intro hc; cases hc), fun n hn => ⟨rfl, ?_⟩, ?_⟩
          · simp [List.filter_cons, actionOn, hn, Ne.symm hn]
          · intro hc
            cases hc
    · rw [hs] at e2
      by_cases hok : w.startOk d.name = true
      · have hwr := wait_for_readyM_running d (setRunning w d.name)
          (by simpa using hrt) (by simp)
        have hmain : start_docker_service dbg d w =
            ⟨.ok (), setRunning w d.name,
             [Inv.psAll d.name, Inv.start d.name, Inv.ps d.name],
             (if dbg then [.debug ("docker_container_exists " ++ d.name)] else []) ++
             ((if dbg then [.debug ("Restarting stopped container: " ++ d.name)] else []) ++
              [])⟩ := by
          show M.bind get_container_runtime _ w = _
          rw [M.bind_apply, hrtev]
          dsimp only [M.bind_eq]
          rw [M.bind_apply, e2]
          dsimp only [M.bind_eq]
          rw [M.bind_apply, M.debugLog_apply]
          dsimp only [M.bind_eq]
          rw [M.bind_apply,
            show docker_start_cmd d.name w =
              ⟨.ok (true, w.startErr d.name), setRunning w d.name,
               [Inv.start d.name], []⟩ from by
                simp [docker_start_cmd, hok]]
          simp [hwr]
        rw [hmain]
        refine ⟨fun _ => by simp, fun n hn => ⟨setRunning_state_ne w hn, ?_⟩, ?_⟩
        · simp [List.filter_cons, actionOn, hn, Ne.symm hn]
        · intro hc
          cases hc
      · have hokf : w.startOk d.name = false := by
          cases hq : w.startOk d.name
          · rfl
          · exact absurd hq hok
        have hmain : start_docker_service dbg d w =
            ⟨.error ("Failed to restart " ++ d.name ++ ": " ++ w.startErr d.name), w,
             [Inv.psAll d.name, Inv.start d.name],
             (if dbg then [.debug ("docker_container_exists " ++ d.name)] else []) ++
             ((if dbg then [.debug ("Restarting stopped container: " ++ d.name)] else []) ++
              [])⟩ := by
          show M.bind get_container_runtime _ w = _
          rw [M.bind_apply, hrtev]
          dsimp only [M.bind_eq]
          rw [M.bind_apply, e2]
          dsimp only [M.bind_eq]
          rw [M.bind_apply, M.debugLog_apply]
          dsimp only [M.bind_eq]
          rw [M.bind_apply,
            show docker_start_cmd d.name w =
              ⟨.ok (false, w.startErr d.name), w, [Inv.start d.name], []⟩ from by
                simp [docker_start_cmd, hokf]]
          simp [M.throw]
        rw [hmain]
        refine ⟨(by intro hc; cases hc), fun n hn => ⟨rfl, ?_⟩, ?_⟩
        · simp [List.filter_cons, actionOn, hn, Ne.symm hn]
        · intro hc
          cases hc
    · rw [hs] at e2
      have hmain : start_docker_service dbg d w =
          ⟨.ok (), w, [Inv.psAll d.name],
           (if dbg then [.debug ("docker_container_exists " ++ d.name)] else []) ++
           (if dbg then [.debug ("Container " ++ d.name ++ " already running")] else [])⟩ := by
        show M.bind get_container_runtime _ w = _
        rw [M.bind_apply, hrtev]
        dsimp only [M.bind_eq]
        rw [M.bind_apply, e2]
        dsimp only
        simp [M.debugLog]
      rw [hmain]
      exact ⟨fun _ => hs, fun n _ => ⟨rfl, rfl⟩, fun _ => ⟨rfl, rfl⟩⟩
  · have hd : ¬(w.docker = true) := fun h => hrt (Or.inl h)
    have hp : ¬(w.podman = true) := fun h => hrt (Or.inr h)
    have hrun : start_docker_service dbg d w =
        ⟨.error "Neither docker nor podman available", w, [], []⟩ := by
      show M.bind get_container_runtime _ w = _
      rw [M.bind_apply, show get_container_runtime w =
        ⟨.error "Neither docker nor podman available", w, [], []⟩ from by
          simp [get_container_runtime, hd, hp]]
    rw [hrun]
    exact ⟨(by intro hc; cases hc), fun n _ => ⟨rfl, rfl⟩, fun _ => ⟨rfl, rfl⟩⟩

theorem context_runpres {n : String} {c : String} {x : M α} {w : World}
    (h : RunPres n w (x w)) : RunPres n w (M.context c x w) := by
  intro hr
  rw [M.context_apply]
  exact h hr

theorem attempt_runpres {n : String} {x : M α} {w : World}
    (h : RunPres n w (x w)) : RunPres n w (M.attempt x w) := by
  intro hr
  rw [M.attempt_apply]
  exact h hr

theorem start_service_runpres (dbg : Bool) (d : BootDatum) (w : World) (n : String) :
    RunPres n w (start_service dbg d w) := by
  unfold start_service
  rcases hdt : d.datum_type with _ | t
  · exact RunPres.of_quiet ⟨rfl, rfl⟩
  · cases t
    case Docker =>
      intro hr
      obtain ⟨h1, h2, h3⟩ := start_docker_service_post dbg d w
      by_cases hn : n = d.name
      · subst hn
        obtain ⟨hw, hi⟩ := h3 hr
        exact ⟨by rw [hw]; exact hr, filter_actionOn_nil hi⟩
      · exact ⟨by rw [(h2 n hn).1]; exact hr, (h2 n hn).2⟩
    all_goals exact RunPres.of_quiet ⟨rfl, rfl⟩

theorem process_deps_runpres (dbg inApi : Bool) (dx : Index) (n : String) :
    ∀ (deps : List String) (w : World),
      RunPres n w (process_deps dbg inApi dx deps w) := by
  intro deps
  induction deps with
  | nil => intro w; exact RunPres.of_quiet ⟨rfl, rfl⟩
  | cons k rest ih =>
      intro w
      unfold process_deps
      rcases hf : findDatum dx k with _ | dd
      · exact ih w
      · refine runPres_bind ?_ ?_
        · exact RunPres.of_quiet (needs_start_quiet dd w)
        · intro ns _
          rw [(needs_start_quiet dd w).1]
          cases ns
          · exact ih w
          · refine runPres_bind ?_ ?_
            · exact context_runpres (start_service_runpres dbg dd w n)
            · intro u2 _
              refine runPres_bind ?_ ?_
              · exact ih _
              · exact fun ls _ => RunPres.of_quiet ⟨rfl, rfl⟩

theorem require_loop_aux_runpres
    (resolveF : String → CapabilityRequirement → M (List String))
    (dbg inApi : Bool) (n : String)
    (hF : ∀ cap req w, RunPres n w (resolveF cap req w)) :
    ∀ (reqs : List (String × CapabilityRequirement)) (w : World),
      RunPres n w (require_loop_aux resolveF dbg inApi reqs w) := by
  intro reqs
  induction reqs with
  | nil => intro w; exact RunPres.of_quiet ⟨rfl, rfl⟩
  | cons r rest ih =>
      intro w
      obtain ⟨rname, req⟩ := r
      unfold require_loop_aux
      rcases hc : req.capability with _ | cap
      · exact ih w
      · refine runPres_bind ?_ ?_
        · exact RunPres.of_quiet ⟨rfl, rfl⟩
        · intro u _
          refine runPres_bind ?_ ?_
          · exact hF cap req _
          · intro l1 _
            refine runPres_bind ?_ ?_
            · exact ih _
            · exact fun l2 _ => RunPres.of_quiet ⟨rfl, rfl⟩

theorem ensure_api_aux_runpres
    (resolveF : String → CapabilityRequirement → M (List String))
    (dbg : Bool) (dx : Index) (n : String)
    (hF : ∀ cap req w, RunPres n w (resolveF cap req w)) :
    ∀ (d : BootDatum) (w : World),
      RunPres n w (ensure_api_aux resolveF dbg dx d w) := by
  intro d w
  unfold ensure_api_aux
  refine runPres_bind ?_ ?_
  · exact RunPres.of_quiet ⟨rfl, rfl⟩
  · intro u _
    refine runPres_bind ?_ ?_
    · exact process_deps_runpres dbg true dx n _ _
    · intro l1 _
      refine runPres_bind ?_ ?_
      · exact require_loop_aux_runpres resolveF dbg true n hF _ _
      · exact fun l2 _ => RunPres.of_quiet ⟨rfl, rfl⟩

theorem fallback_aux_runpres (apiF : BootDatum → M (List String)) (dbg : Bool)
    (dx : Index) (cap : String) (req : CapabilityRequirement) (n : String)
    (hA : ∀ d w, RunPres n w (apiF d w)) :
    ∀ w : World, RunPres n w (fallback_aux apiF dbg dx cap req w) := by
  intro w
  unfold fallback_aux
  rcases hfb : req.fallback with _ | fb
  · exact RunPres.of_quiet ⟨rfl, rfl⟩
  · dsimp only
    rcases hfind : List.find? (fun p => decide (p.2.name = fb ∧
        p.2.datum_type = some DatumType.Api)) dx with _ | kd <;> rw [hfind]
    · exact RunPres.of_quiet ⟨rfl, rfl⟩
    · refine runPres_bind ?_ ?_
      · exact RunPres.of_quiet ⟨rfl, rfl⟩
      · intro u _
        exact hA _ _

theorem try_cands_aux_runpres (apiF : BootDatum → M (List String))
    (afterAll : M (List String)) (n : String)
    (hA : ∀ d w, RunPres n w (apiF d w))
    (hAfter : ∀ w, RunPres n w (afterAll w)) :
    ∀ (cs : List (String × BootDatum)) (w : World),
      RunPres n w (try_cands_aux apiF afterAll cs w) := by
  intro cs
  induction cs with
  | nil => intro w; exact hAfter w
  | cons c rest ih =>
      intro w
      obtain ⟨k, d⟩ := c
      unfold try_cands_aux
      refine @runPres_bind _ _ n (M.attempt (apiF d))
        (fun r => match r with
          | .ok l0 => M.pure l0
          | .error e => M.bind (M.log (LogEv.warnFailedStart k e))
              (fun _ => try_cands_aux apiF afterAll rest)) w ?_ ?_
      · exact attempt_runpres (hA d w)
      · intro r _
        rcases r with e | l0
        · exact ih _
        · exact RunPres.of_quiet ⟨rfl, rfl⟩

theorem resolve_capability_runpres (dbg : Bool) (dx : Index) (n : String) :
    ∀ (fuel : Nat) (cap : String) (req : CapabilityRequirement) (w : World),
      RunPres n w (resolve_capability dbg dx fuel cap req w) := by
  intro fuel
  induction fuel with
  | zero => intro cap req w; exact RunPres.of_quiet ⟨rfl, rfl⟩
  | succ fuel ih =>
      intro cap req w
      have hA : ∀ d w0, RunPres n w0 (ensure_api_dependencies dbg dx fuel d w0) :=
        fun d w0 => ensure_api_aux_runpres (resolve_capability dbg dx fuel) dbg dx n
          (fun cap0 req0 w1 => ih cap0 req0 w1) d w0
      exact try_cands_aux_runpres _ _ n hA
        (fun w0 => fallback_aux_runpres _ dbg dx cap req n hA w0)
        (sorted_candidates dx cap req) w

theorem ensure_dependencies_runpres (dbg : Bool) (dx : Index) (fuel : Nat)
    (key : String) (n : String) (w : World) :
    RunPres n w (ensure_dependencies dbg dx fuel key w) := by
  unfold ensure_dependencies
  rcases hf : findDatum dx key with _ | d
  · exact RunPres.of_quiet ⟨rfl, rfl⟩
  · refine runPres_bind ?_ ?_
    · exact process_deps_runpres dbg false dx n _ w
    · intro l1 _
      refine runPres_bind ?_ ?_
      · exact require_loop_aux_runpres (resolve_capability dbg dx fuel) dbg false n
          (fun cap req w0 => resolve_capability_runpres dbg dx n fuel cap req w0) _ _
      · exact fun l2 _ => RunPres.of_quiet ⟨rfl, rfl⟩

/-! ### Idempotence when every container is already running (C7) -/

theorem findDatum_mem {dx : Index} {k : String} {d : BootDatum}
    (h : findDatum dx k = some d) : ∃ p ∈ dx, p.2 = d := by
  unfold findDatum at h
  rcases hf : List.find? (fun p => p.1 = k) dx with _ | p
  · rw [hf] at h
    simp at h
  · rw [hf] at h
    simp at h
    exact ⟨p, List.mem_of_find?_eq_some hf, h⟩

theorem needs_start_not_true (d : BootDatum) (w : World)
    (h : d.datum_type = some DatumType.Docker → w.state d.name = ContState.Running) :
    (needs_start d w).val ≠ .ok true := by
  intro hv
  rcases hdt : d.datum_type with _ | t
  · unfold needs_start at hv
    rw [hdt] at hv
    simp [M.pure] at hv
  · unfold needs_start at hv
    rw [hdt] at hv
    cases t
    case Docker =>
      obtain ⟨r, hr1, hr2⟩ := M.bind_ok_inv hv
      obtain ⟨rt, hg1, hg2⟩ := M.bind_ok_inv hr1
      rw [(get_container_runtime_quiet w).1] at hg2
      cases r
      · simp [observe_ps, h hdt] at hg2
      · simp [M.pure] at hr2
    all_goals simp [M.pure] at hv

theorem bind_val_quiet {x : M α} {f : α → M β} {w : World} {b : β}
    (hx : Quiet w (x w)) (h : (M.bind x f w).val = .ok b) :
    ∃ a, (x w).val = .ok a ∧ (f a w).val = .ok b := by
  obtain ⟨a, h1, h2⟩ := M.bind_ok_inv h
  rw [hx.1] at h2
  exact ⟨a, h1, h2⟩

theorem attempt_quiet {x : M α} {w : World} (h : Quiet w (x w)) :
    Quiet w (M.attempt x w) := by
  rw [M.attempt_apply]
  exact ⟨h.1, h.2⟩

theorem process_deps_allrunning (dbg inApi : Bool) (dx : Index) (w : World)
    (hAll : AllRunning dx w) :
    ∀ deps : List String,
      Quiet w (process_deps dbg inApi dx deps w) ∧
      ∀ l, (process_deps dbg inApi dx deps w).val = .ok l → l = [] := by
  intro deps
  induction deps with
  | nil =>
      refine ⟨⟨rfl, rfl⟩, ?_⟩
      intro l h
      injection h with h
      exact h.symm
  | cons k rest ih =>
      unfold process_deps
      rcases hf : findDatum dx k with _ | dd
      · exact ih
      · have hrun : dd.datum_type = some DatumType.Docker →
            w.state dd.name = ContState.Running := by
          intro hdt
          obtain ⟨p, hp, hpd⟩ := findDatum_mem hf
          have hx := hAll p hp (by rw [hpd]; exact hdt)
          rw [hpd] at hx
          exact hx
        constructor
        · refine quiet_bind (needs_start_quiet dd w) ?_
          intro ns hns
          cases ns
          · exact ih.1
          · exact absurd hns (needs_start_not_true dd w hrun)
        · intro l h
          obtain ⟨ns, h1, h2⟩ := bind_val_quiet (needs_start_quiet dd w) h
          cases ns
          · exact ih.2 l h2
          · exact absurd h1 (needs_start_not_true dd w hrun)

theorem require_loop_aux_allrunning
    (resolveF : String → CapabilityRequirement → M (List String))
    (dbg inApi : Bool) (w : World)
    (hF : ∀ cap req, Quiet w (resolveF cap req w) ∧
      ∀ l, (resolveF cap req w).val = .ok l → l = []) :
    ∀ reqs : List (String × CapabilityRequirement),
      Quiet w (require_loop_aux resolveF dbg inApi reqs w) ∧
      ∀ l, (require_loop_aux resolveF dbg inApi reqs w).val = .ok l → l = [] := by
  intro reqs
  induction reqs with
  | nil =>
      refine ⟨⟨rfl, rfl⟩, ?_⟩
      intro l h
      injection h with h
      exact h.symm
  | cons r rest ih =>
      obtain ⟨rname, req⟩ := r
      unfold require_loop_aux
      rcases hc : req.capability with _ | cap
      · exact ih
      · constructor
        · refine quiet_bind ⟨rfl, rfl⟩ ?_
          intro u _
          refine quiet_bind (hF cap req).1 ?_
          intro l1 _
          refine quiet_bind ih.1 ?_
          intro l2 _
          exact ⟨rfl, rfl⟩
        · intro l h
          obtain ⟨l1, h1, h2⟩ := bind_val_quiet (hF cap req).1 h
          obtain ⟨l2, h3, h4⟩ := bind_val_quiet ih.1 h2
          injection h4 with h4
          rw [← h4, (hF cap req).2 l1 h1, ih.2 l2 h3]
          rfl

theorem ensure_api_aux_allrunning
    (resolveF : String → CapabilityRequirement → M (List String))
    (dbg : Bool) (dx : Index) (w : World) (hAll : AllRunning dx w)
    (hF : ∀ cap req, Quiet w (resolveF cap req w) ∧
      ∀ l, (resolveF cap req w).val = .ok l → l = []) (d : BootDatum) :
    Quiet w (ensure_api_aux resolveF dbg dx d w) ∧
    ∀ l, (ensure_api_aux resolveF dbg dx d w).val = .ok l → l = [] := by
  unfold ensure_api_aux
  constructor
  · refine quiet_bind ⟨rfl, rfl⟩ ?_
    intro u _
    refine quiet_bind (process_deps_allrunning dbg true dx w hAll _).1 ?_
    intro s1 _
    refine quiet_bind (require_loop_aux_allrunning resolveF dbg true w hF _).1 ?_
    intro s2 _
    exact ⟨rfl, rfl⟩
  · intro l h
    obtain ⟨s1, h1, h2⟩ := bind_val_quiet (process_deps_allrunning dbg true dx w hAll _).1 h
    obtain ⟨s2, h3, h4⟩ := bind_val_quiet
      (require_loop_aux_allrunning resolveF dbg true w hF _).1 h2
    injection h4 with h4
    rw [← h4, (process_deps_allrunning dbg true dx w hAll _).2 s1 h1,
      (require_loop_aux_allrunning resolveF dbg true w hF _).2 s2 h3]
    rfl

theorem fallback_aux_allrunning (apiF : BootDatum → M (List String)) (dbg : Bool)
    (dx : Index) (cap : String) (req : CapabilityRequirement) (w : World)
    (hA : ∀ d, Quiet w (apiF d w) ∧ ∀ l, (apiF d w).val = .ok l → l = []) :
    Quiet w (fallback_aux apiF dbg dx cap req w) ∧
    ∀ l, (fallback_aux apiF dbg dx cap req w).val = .ok l → l = [] := by
  unfold fallback_aux
  rcases hfb : req.fallback with _ | fb
  · refine ⟨⟨rfl, rfl⟩, ?_⟩
    intro l h
    exact Except.noConfusion h
  · dsimp only
    rcases hfind : List.find? (fun p => decide (p.2.name = fb ∧
        p.2.datum_type = some DatumType.Api)) dx with _ | kd <;> rw [hfind]
    · refine ⟨⟨rfl, rfl⟩, ?_⟩
      intro l h
      exact Except.noConfusion h
    · constructor
      · exact (hA kd.2).1
      · intro l h
        exact (hA kd.2).2 l h

theorem try_cands_aux_allrunning (apiF : BootDatum → M (List String))
    (afterAll : M (List String)) (w : World)
    (hA : ∀ d, Quiet w (apiF d w) ∧ ∀ l, (apiF d w).val = .ok l → l = [])
    (hAfter : Quiet w (afterAll w) ∧ ∀ l, (afterAll w).val = .ok l → l = []) :
    ∀ cs : List (String × BootDatum),
      Quiet w (try_cands_aux apiF afterAll cs w) ∧
      ∀ l, (try_cands_aux apiF afterAll cs w).val = .ok l → l = [] := by
  intro cs
  induction cs with
  | nil => exact hAfter
  | cons c rest ih =>
      obtain ⟨k, d⟩ := c
      unfold try_cands_aux
      constructor
      · refine quiet_bind (attempt_quiet (hA d).1) ?_
        intro r _
        rcases r with e | l0
        · exact ih.1
        · exact ⟨rfl, rfl⟩
      · intro l h
        obtain ⟨r, h1, h2⟩ := bind_val_quiet (attempt_quiet (hA d).1) h
        rcases r with e | l0
        · exact ih.2 l h2
        · have hl0 : (apiF d w).val = .ok l0 := by
            rw [M.attempt_apply] at h1
            injection h1 with h1
          injection h2 with h2
          rw [← h2]
          exact (hA d).2 l0 hl0

theorem resolve_capability_allrunning (dbg : Bool) (dx : Index) (w : World)
    (hAll : AllRunning dx w) :
    ∀ (fuel : Nat) (cap : String) (req : CapabilityRequirement),
      Quiet w (resolve_capability dbg dx fuel cap req w) ∧
      ∀ l, (resolve_capability dbg dx fuel cap req w).val = .ok l → l = [] := by
  intro fuel
  induction fuel with
  | zero =>
      intro cap req
      refine ⟨⟨rfl, rfl⟩, ?_⟩
      intro l h
      exact Except.noConfusion h
  | succ fuel ih =>
      intro cap req
      have hA : ∀ d,
          Quiet w (ensure_api_aux (resolve_capability dbg dx fuel) dbg dx d w) ∧
          ∀ l, (ensure_api_aux (resolve_capability dbg dx fuel) dbg dx d w).val =
            .ok l → l = [] :=
        fun d => ensure_api_aux_allrunning (resolve_capability dbg dx fuel) dbg dx w hAll
          (fun cap0 req0 => ih cap0 req0) d
      exact try_cands_aux_allrunning (ensure_api_aux (resolve_capability dbg dx fuel) dbg dx)
        (fallback_aux (ensure_api_aux (resolve_capability dbg dx fuel) dbg dx) dbg dx cap req)
        w hA (fallback_aux_allrunning _ dbg dx cap req w hA) (sorted_candidates dx cap req)

theorem ensure_dependencies_allrunning (dbg : Bool) (dx : Index) (fuel : Nat)
    (key : String) (w : World) (hAll : AllRunning dx w) :
    Quiet w (ensure_dependencies dbg dx fuel key w) ∧
    ∀ l, (ensure_dependencies dbg dx fuel key w).val = .ok l → l = [] := by
  unfold ensure_dependencies
  rcases hf : findDatum dx key with _ | d
  · refine ⟨⟨rfl, rfl⟩, ?_⟩
    intro l h
    exact Except.noConfusion h
  · have hF : ∀ cap req, Quiet w (resolve_capability dbg dx fuel cap req w) ∧
        ∀ l, (resolve_capability dbg dx fuel cap req w).val = .ok l → l = [] :=
      fun cap req => resolve_capability_allrunning dbg dx w hAll fuel cap req
    constructor
    · refine quiet_bind (process_deps_allrunning dbg false dx w hAll _).1 ?_
      intro s1 _
      refine quiet_bind
        (require_loop_aux_allrunning (resolve_capability dbg dx fuel) dbg false w hF _).1 ?_
      intro s2 _
      exact ⟨rfl, rfl⟩
    · intro l h
      obtain ⟨s1, h1, h2⟩ := bind_val_quiet (process_deps_allrunning dbg false dx w hAll _).1 h
      obtain ⟨s2, h3, h4⟩ := bind_val_quiet
        (require_loop_aux_allrunning (resolve_capability dbg dx fuel) dbg false w hF _).1 h2
      injection h4 with h4
      rw [← h4, (process_deps_allrunning dbg false dx w hAll _).2 s1 h1,
        (require_loop_aux_allrunning (resolve_capability dbg dx fuel) dbg false w hF _).2 s2 h3]
      rfl

/-- Claim C7: when every Docker-typed datum of the index already has its
container observed running, `ensure_dependencies` leaves the world unchanged,
performs zero container create/restart invocations and records no dependency
as started; and after any first call, a second call performs zero
create/restart invocations naming any container the first call left running
(which stays running). -/
theorem claim_C7_idempotence (dbg : Bool) (dx : Index) (fuel : Nat)
    (key : String) (w : World) :
    (AllRunning dx w →
      Quiet w (ensure_dependencies dbg dx fuel key w) ∧
      ∀ l, (ensure_dependencies dbg dx fuel key w).val = .ok l → l = []) ∧
    (∀ n, (ensure_dependencies dbg dx fuel key w).w.state n = ContState.Running →
      (ensure_dependencies dbg dx fuel key
          ((ensure_dependencies dbg dx fuel key w).w)).w.state n = ContState.Running ∧
      (ensure_dependencies dbg dx fuel key
          ((ensure_dependencies dbg dx fuel key w).w)).invs.filter (actionOn n) = []) := by
  constructor
  · intro hAll
    exact ensure_dependencies_allrunning dbg dx fuel key w hAll
  · intro n h
    exact ensure_dependencies_runpres dbg dx fuel key n
      ((ensure_dependencies dbg dx fuel key w).w) h

theorem claim_C7_idempotence_witness :
    (Quiet wAllUp (ensure_dependencies false dxLocal 4 "local.api" wAllUp) ∧
      ∀ l, (ensure_dependencies false dxLocal 4 "local.api" wAllUp).val = .ok l → l = []) ∧
    ((ensure_dependencies false dxLocal 4 "local.api"
        ((ensure_dependencies false dxLocal 4 "local.api" wStopped).w)).w.state "qdrant" =
          ContState.Running ∧
      (ensure_dependencies false dxLocal 4 "local.api"
        ((ensure_dependencies false dxLocal 4 "local.api" wStopped).w)).invs.filter
          (actionOn "qdrant") = []) :=
  ⟨(claim_C7_idempotence false dxLocal 4 "local.api" wAllUp).1 (by intro p hp hdt; rfl),
   (claim_C7_idempotence false dxLocal 4 "local.api" wStopped).2 "qdrant" (by decide)⟩

/-! ### The debug flag never affects resolution outcomes (C9) -/

theorem codeOf_bind_congr {x x' : M α} {f f' : α → M β} {w : World}
    (hx : codeOf (x w) = codeOf (x' w))
    (hf : ∀ a w', codeOf (f a w') = codeOf (f' a w')) :
    codeOf (M.bind x f w) = codeOf (M.bind x' f' w) := by
  have h1 : (x w).val = (x' w).val := congrArg (fun t => t.1) hx
  have h2 : (x w).w = (x' w).w := congrArg (fun t => t.2.1) hx
  have h3 : (x w).invs = (x' w).invs := congrArg (fun t => t.2.2) hx
  rcases hv : (x w).val with e | a
  · have hv' : (x' w).val = .error e := by rw [← h1, hv]
    rw [M.bind_apply_err hv, M.bind_apply_err hv']
    unfold codeOf
    dsimp only
    rw [h2, h3]
  · have hv' : (x' w).val = .ok a := by rw [← h1, hv]
    rw [M.bind_apply_ok hv, M.bind_apply_ok hv']
    unfold codeOf
    dsimp only
    rw [h2, h3]
    have f1 : (f a ((x' w).w)).val = (f' a ((x' w).w)).val :=
      congrArg (fun t => t.1) (hf a ((x' w).w))
    have f2 : (f a ((x' w).w)).w = (f' a ((x' w).w)).w :=
      congrArg (fun t => t.2.1) (hf a ((x' w).w))
    have f3 : (f a ((x' w).w)).invs = (f' a ((x' w).w)).invs :=
      congrArg (fun t => t.2.2) (hf a ((x' w).w))
    rw [f1, f2, f3]

theorem codeOf_context_congr {c : String} {x x' : M α} {w : World}
    (hx : codeOf (x w) = codeOf (x' w)) :
    codeOf (M.context c x w) = codeOf (M.context c x' w) := by
  have h1 : (x w).val = (x' w).val := congrArg (fun t => t.1) hx
  have h2 : (x w).w = (x' w).w := congrArg (fun t => t.2.1) hx
  have h3 : (x w).invs = (x' w).invs := congrArg (fun t => t.2.2) hx
  rw [M.context_apply, M.context_apply]
  unfold codeOf
  dsimp only
  rw [h1, h2, h3]

theorem codeOf_attempt_congr {x x' : M α} {w : World}
    (hx : codeOf (x w) = codeOf (x' w)) :
    codeOf (M.attempt x w) = codeOf (M.attempt x' w) := by
  have h1 : (x w).val = (x' w).val := congrArg (fun t => t.1) hx
  have h2 : (x w).w = (x' w).w := congrArg (fun t => t.2.1) hx
  have h3 : (x w).invs = (x' w).invs := congrArg (fun t => t.2.2) hx
  rw [M.attempt_apply, M.attempt_apply]
  unfold codeOf
  dsimp only
  rw [h1, h2, h3]

theorem docker_container_existsM_nodbg (dbg : Bool) (n : String) (w : World) :
    codeOf (docker_container_existsM dbg n w) =
      codeOf (docker_container_existsM false n w) := by
  unfold docker_container_existsM
  refine codeOf_bind_congr rfl ?_
  intro rt w1
  refine codeOf_bind_congr rfl ?_
  intro r w2
  refine codeOf_bind_congr rfl ?_
  intro u w3
  rfl

theorem start_docker_service_nodbg (dbg : Bool) (d : BootDatum) (w : World) :
    codeOf (start_docker_service dbg d w) =
      codeOf (start_docker_service false d w) := by
  unfold start_docker_service
  refine codeOf_bind_congr rfl ?_
  intro rt w1
  refine codeOf_bind_congr (docker_container_existsM_nodbg dbg d.name w1) ?_
  intro ex w2
  rcases ex with _ | b
  · refine codeOf_bind_congr rfl ?_
    intro u w3
    rfl
  · rcases b with _ | _
    · refine codeOf_bind_congr rfl ?_
      intro u w3
      rfl
    · rfl

theorem start_service_nodbg (dbg : Bool) (d : BootDatum) (w : World) :
    codeOf (start_service dbg d w) = codeOf (start_service false d w) := by
  unfold start_service
  rcases hdt : d.datum_type with _ | t
  · rfl
  · cases t
    case Docker => exact start_docker_service_nodbg dbg d w
    all_goals rfl

theorem process_deps_nodbg (dbg inApi : Bool) (dx : Index) :
    ∀ (deps : List String) (w : World),
      codeOf (process_deps dbg inApi dx deps w) =
        codeOf (process_deps false inApi dx deps w) := by
  intro deps
  induction deps with
  | nil => intro w; rfl
  | cons k rest ih =>
      intro w
      unfold process_deps
      rcases hf : findDatum dx k with _ | dd
      · exact ih w
      · refine codeOf_bind_congr rfl ?_
        intro ns w1
        cases ns
        · exact ih w1
        · refine codeOf_bind_congr
            (codeOf_context_congr (start_service_nodbg dbg dd _)) ?_
          intro u2 w3
          refine codeOf_bind_congr (ih _) ?_
          intro ls w4
          rfl

theorem require_loop_aux_nodbg
    (resolveF resolveG : String → CapabilityRequirement → M (List String))
    (dbg inApi : Bool)
    (hF : ∀ cap req w, codeOf (resolveF cap req w) = codeOf (resolveG cap req w)) :
    ∀ (reqs : List (String × CapabilityRequirement)) (w : World),
      codeOf (require_loop_aux resolveF dbg inApi reqs w) =
        codeOf (require_loop_aux resolveG false inApi reqs w) := by
  intro reqs
  induction reqs with
  | nil => intro w; rfl
  | cons r rest ih =>
      intro w
      obtain ⟨rname, req⟩ := r
      unfold require_loop_aux
      rcases hc : req.capability with _ | cap
      · exact ih w
      · refine codeOf_bind_congr rfl ?_
        intro u w1
        refine codeOf_bind_congr (hF cap req w1) ?_
        intro l1 w2
        refine codeOf_bind_congr (ih w2) ?_
        intro l2 w3
        rfl

theorem ensure_api_aux_nodbg
    (resolveF resolveG : String → CapabilityRequirement → M (List String))
    (dbg : Bool) (dx : Index)
    (hF : ∀ cap req w, codeOf (resolveF cap req w) = codeOf (resolveG cap req w)) :
    ∀ (d : BootDatum) (w : World),
      codeOf (ensure_api_aux resolveF dbg dx d w) =
        codeOf (ensure_api_aux resolveG false dx d w) := by
  intro d w
  unfold ensure_api_aux
  refine codeOf_bind_congr rfl ?_
  intro u w1
  refine codeOf_bind_congr (process_deps_nodbg dbg true dx _ w1) ?_
  intro s1 w2
  refine codeOf_bind_congr (require_loop_aux_nodbg resolveF resolveG dbg true hF _ w2) ?_
  intro s2 w3
  rfl

theorem fallback_aux_nodbg (apiF apiG : BootDatum → M (List String)) (dbg : Bool)
    (dx : Index) (cap : String) (req : CapabilityRequirement)
    (hA : ∀ d w, codeOf (apiF d w) = codeOf (apiG d w)) :
    ∀ w : World,
      codeOf (fallback_aux apiF dbg dx cap req w) =
        codeOf (fallback_aux apiG false dx cap req w) := by
  intro w
  unfold fallback_aux
  rcases hfb : req.fallback with _ | fb
  · rfl
  · dsimp only
    rcases hfind : List.find? (fun p => decide (p.2.name = fb ∧
        p.2.datum_type = some DatumType.Api)) dx with _ | kd <;> rw [hfind]
    · rfl
    · refine codeOf_bind_congr rfl ?_
      intro u w1
      exact hA kd.2 w1

theorem try_cands_aux_nodbg (apiF apiG : BootDatum → M (List String))
    (afterAll afterAll2 : M (List String))
    (hA : ∀ d w, codeOf (apiF d w) = codeOf (apiG d w))
    (hAfter : ∀ w, codeOf (afterAll w) = codeOf (afterAll2 w)) :
    ∀ (cs : List (String × BootDatum)) (w : World),
      codeOf (try_cands_aux apiF afterAll cs w) =
        codeOf (try_cands_aux apiG afterAll2 cs w) := by
  intro cs
  induction cs with
  | nil => intro w; exact hAfter w
  | cons c rest ih =>
      intro w
      obtain ⟨k, d⟩ := c
      unfold try_cands_aux
      refine codeOf_bind_congr (codeOf_attempt_congr (hA d w)) ?_
      intro r w1
      rcases r with e | l0
      · exact ih w1
      · rfl

theorem resolve_capability_nodbg (dbg : Bool) (dx : Index) :
    ∀ (fuel : Nat) (cap : String) (req : CapabilityRequirement) (w : World),
      codeOf (resolve_capability dbg dx fuel cap req w) =
        codeOf (resolve_capability false dx fuel cap req w) := by
  intro fuel
  induction fuel with
  | zero => intro cap req w; rfl
  | succ fuel ih =>
      intro cap req w
      have hA : ∀ d w0,
          codeOf (ensure_api_aux (resolve_capability dbg dx fuel) dbg dx d w0) =
            codeOf (ensure_api_aux (resolve_capability false dx fuel) false dx d w0) :=
        fun d w0 => ensure_api_aux_nodbg (resolve_capability dbg dx fuel)
          (resolve_capability false dx fuel) dbg dx
          (fun cap0 req0 w1 => ih cap0 req0 w1) d w0
      exact try_cands_aux_nodbg
        (ensure_api_aux (resolve_capability dbg dx fuel) dbg dx)
        (ensure_api_aux (resolve_capability false dx fuel) false dx)
        (fallback_aux (ensure_api_aux (resolve_capability dbg dx fuel) dbg dx) dbg dx cap req)
        (fallback_aux (ensure_api_aux (resolve_capability false dx fuel) false dx)
          false dx cap req)
        hA (fallback_aux_nodbg _ _ dbg dx cap req hA)
        (sorted_candidates dx cap req) w

theorem ensure_dependencies_nodbg (dbg : Bool) (dx : Index) (fuel : Nat)
    (key : String) (w : World) :
    codeOf (ensure_dependencies dbg dx fuel key w) =
      codeOf (ensure_dependencies false dx fuel key w) := by
  unfold ensure_dependencies
  rcases hf : findDatum dx key with _ | d
  · rfl
  · refine codeOf_bind_congr (process_deps_nodbg dbg false dx _ w) ?_
    intro s1 w1
    refine codeOf_bind_congr (require_loop_aux_nodbg (resolve_capability dbg dx fuel)
      (resolve_capability false dx fuel) dbg false
      (fun cap req w2 => resolve_capability_nodbg dbg dx fuel cap req w2) _ w1) ?_
    intro s2 w2
    rfl

/-- Claim C9: the debug flag changes only the diagnostic log: the result
value, the final runtime state and the runtime invocations of
`ensure_dependencies` (and of `resolve_capability`) are identical with the
flag set and unset, on every index, key, capability and world. -/
theorem claim_C9_debug_flag_no_effect (dbg : Bool) (dx : Index) (fuel : Nat)
    (key cap : String) (req : CapabilityRequirement) (w : World) :
    codeOf (ensure_dependencies dbg dx fuel key w) =
      codeOf (ensure_dependencies false dx fuel key w) ∧
    codeOf (resolve_capability dbg dx fuel cap req w) =
      codeOf (resolve_capability false dx fuel cap req w) :=
  ⟨ensure_dependencies_nodbg dbg dx fuel key w,
   resolve_capability_nodbg dbg dx fuel cap req w⟩

end B00t
